import Mathlib

/-!
Verification development for the pepeai-agent-marketplace-front-api core:
a shallow embedding of the chunking engine (lib/textUtils.ts and
lib/chunking/strategies/*), the provider resilience core
(baseEmbeddingProvider.withRetry / BaseLLMProvider.withRetry), the embedding
batch helpers (processBatches / mergeResponses and the Ollama sequential
fallback), the vendor finish-reason mappings and the Anthropic message
translation.

JavaScript strings are modelled as `List Char`; JS numeric positions that can
become negative (substring offsets, indexOf results) are modelled as `Int`
with the clamping that the JS string methods perform.  The single unbounded
`while` loop of the code base (fixedChunk) is modelled with explicit fuel so
that non-termination of the source loop is expressible.
-/

/-- JS strings as lists of characters. -/
abbrev Str := List Char

/-- Coerce a Lean string literal to the `Str` model. -/
def str (s : String) : Str := s.data

/-- JS `\s` whitespace class (the code points that occur in this code base's
data: space, tab, LF, CR, VT, FF, NBSP, BOM). -/
def isJsWs (c : Char) : Bool :=
  c = ' ' || c = '\t' || c = '\n' || c = '\r' ||
  c = Char.ofNat 11 || c = Char.ofNat 12 || c = Char.ofNat 160 || c = Char.ofNat 65279

/-- JS `String.prototype.trim`: drop leading and trailing whitespace. -/
def jsTrim (s : Str) : Str :=
  ((s.dropWhile isJsWs).reverse.dropWhile isJsWs).reverse

/-- Clamp a possibly negative JS index into `[0, len]`. -/
def clampIdx (len : Nat) (i : Int) : Nat :=
  (max 0 (min i (len : Int))).toNat

/-- JS `String.prototype.substring(a, b)`: clamps both arguments to the string
bounds and swaps them when `a > b`. -/
def jsSubstring (s : Str) (a b : Int) : Str :=
  let x := clampIdx s.length a
  let y := clampIdx s.length b
  (s.drop (min x y)).take (max x y - min x y)

/-- JS one-argument `substring(a)`: from `a` to the end. -/
def jsSubstringFrom (s : Str) (a : Int) : Str :=
  jsSubstring s a (s.length : Int)

/-- Does `pat` occur in `s` starting at position `i`? -/
def occursAt (s pat : Str) (i : Nat) : Bool :=
  (s.drop i).take pat.length = pat

/-- First occurrence of `pat` in `s` at a position `≥ start` (`none` if absent).
Helper for the JS `indexOf`/`split` semantics. -/
def findOccFrom (s pat : Str) (start : Nat) : Option Nat :=
  (List.range (s.length + 1)).find? (fun i => decide (start ≤ i) && occursAt s pat i)

/-- JS `String.prototype.indexOf(pat, pos)`: `-1` when absent, negative `pos`
clamped to `0`. -/
def jsIndexOf (s pat : Str) (pos : Int) : Int :=
  match findOccFrom s pat (clampIdx s.length pos) with
  | some i => (i : Int)
  | none => -1

/-- JS `String.prototype.lastIndexOf(pat, pos)`: the largest index `≤ pos`
(clamped into `[0, len]`) where `pat` occurs; `-1` when absent. -/
def jsLastIndexOf (s pat : Str) (pos : Int) : Int :=
  let k := clampIdx s.length pos
  match ((List.range (k + 1)).filter (fun i => occursAt s pat i)).getLast? with
  | some i => (i : Int)
  | none => -1

/-- Split at every occurrence of a non-empty separator, left to right
(the JS `String.prototype.split(sep)` with a string separator); an empty
separator splits into single characters, as in JS. -/
def splitStrGo (sep : Str) : Nat → Str → List Str
  | 0, s => [s]
  | fuel + 1, s =>
    match findOccFrom s sep 0 with
    | none => [s]
    | some i => s.take i :: splitStrGo sep fuel (s.drop (i + sep.length))

def splitStr (s sep : Str) : List Str :=
  if sep.isEmpty then s.map (fun c => [c])
  else splitStrGo sep s.length s

/-- Join a list of strings with a separator (JS `Array.prototype.join`). -/
def strJoin (sep : Str) : List Str → Str
  | [] => []
  | [p] => p
  | p :: rest => p ++ sep ++ strJoin sep rest

/-- JS `s.split(pat).join(repl)`: replace every occurrence of `pat`. -/
def splitJoin (s pat repl : Str) : Str :=
  strJoin repl (splitStr s pat)

-- ------------------------------------------------------------------
-- lib/textUtils.ts
-- ------------------------------------------------------------------

/-- `estimateTokens`: `Math.ceil(text.length / 4)`. -/
def estimateTokens (text : Str) : Nat :=
  (text.length + 3) / 4

/-- Replace every CRLF pair with LF (the `/\r\n/g` replacement in
`cleanTextForChunking`). -/
def replaceCRLF : Str → Str
  | [] => []
  | '\r' :: '\n' :: rest => '\n' :: replaceCRLF rest
  | c :: rest => c :: replaceCRLF rest

theorem dropWhile_length_le (p : Char → Bool) (l : Str) :
    (l.dropWhile p).length ≤ l.length := by
  induction l with
  | nil => simp [List.dropWhile]
  | cons c rest ih =>
    by_cases h : p c
    · simp [List.dropWhile, h]
      omega
    · simp [List.dropWhile, h]

/-- Collapse every run of spaces/tabs to a single space
(the `/[ \t]+/g → ' '` replacement); fuel-structural (each step consumes at
least one character, so fuel = length always suffices). -/
def collapseSpaceTabGo : Nat → Str → Str
  | _, [] => []
  | 0, s => s
  | fuel + 1, c :: rest =>
    if c = ' ' || c = '\t' then
      ' ' :: collapseSpaceTabGo fuel (rest.dropWhile (fun d => d = ' ' || d = '\t'))
    else c :: collapseSpaceTabGo fuel rest

def collapseSpaceTab (s : Str) : Str :=
  collapseSpaceTabGo s.length s

/-- Collapse every run of three or more LFs to exactly two
(the `/\n{3,}/g → '\n\n'` replacement); fuel-structural. -/
def collapseNewlinesGo : Nat → Str → Str
  | _, [] => []
  | 0, s => s
  | fuel + 1, c :: rest =>
    if c = '\n' then
      let run := rest.takeWhile (fun d => d = '\n')
      let keep := if run.length + 1 ≥ 3 then str "\n\n" else '\n' :: run
      keep ++ collapseNewlinesGo fuel (rest.drop run.length)
    else c :: collapseNewlinesGo fuel rest

def collapseNewlines (s : Str) : Str :=
  collapseNewlinesGo s.length s

/-- `cleanTextForChunking`: CRLF→LF, collapse horizontal whitespace runs,
collapse 3+ newlines to 2, trim. -/
def cleanTextForChunking (text : Str) : Str :=
  jsTrim (collapseNewlines (collapseSpaceTab (replaceCRLF text)))

/-- Sentence-final punctuation used by the splitting regexes. -/
def isSentencePunct (c : Char) : Bool :=
  c = '.' || c = '!' || c = '?'

/-- Split on the regex `/(?<=[.!?])\s+/`: a maximal whitespace run preceded by
sentence-final punctuation ends the current piece (the raw split, before the
trim/filter of `splitIntoSentences`). -/
def splitSentencePunctGo : Nat → Option Char → Str → Str → List Str → List Str
  | _, _, [], tokRev, accRev => (tokRev.reverse :: accRev).reverse
  | 0, _, s, tokRev, accRev => ((tokRev.reverse ++ s) :: accRev).reverse
  | fuel + 1, prev, c :: rest, tokRev, accRev =>
    if isJsWs c && (match prev with | some p => isSentencePunct p | none => false) then
      splitSentencePunctGo fuel none (rest.dropWhile isJsWs) [] (tokRev.reverse :: accRev)
    else
      splitSentencePunctGo fuel (some c) rest (c :: tokRev) accRev

def splitSentencePunct (s : Str) : List Str :=
  splitSentencePunctGo s.length none s [] []

/-- The abbreviation list of `splitIntoSentences`. -/
def abbreviations : List Str :=
  [str "Mr.", str "Mrs.", str "Ms.", str "Dr.", str "Prof.", str "Sr.",
   str "Jr.", str "vs.", str "etc.", str "e.g.", str "i.e."]

/-- Placeholder `__ABBR${idx}__` for abbreviation number `idx`. -/
def placeholderFor (idx : Nat) : Str :=
  str "__ABBR" ++ (Nat.repr idx).data ++ str "__"

/-- The `abbreviations.forEach` substitution pass. -/
def substituteAbbrs (text : Str) : Str :=
  (abbreviations.enum.foldl (fun t p => splitJoin t p.2 (placeholderFor p.1)) text)

/-- The `placeholders.forEach` restoration pass (insertion order 0..10). -/
def restoreAbbrs (sentence : Str) : Str :=
  (abbreviations.enum.foldl (fun t p => splitJoin t (placeholderFor p.1) p.2) sentence)

/-- `splitIntoSentences`: substitute abbreviations with placeholders, split on
sentence-final punctuation followed by whitespace, trim, drop empties, restore
the abbreviations. -/
def splitIntoSentences (text : Str) : List Str :=
  let processed := substituteAbbrs text
  let sentences := ((splitSentencePunct processed).map jsTrim).filter (fun s => !s.isEmpty)
  sentences.map restoreAbbrs

/-- Last index of a `'\n'` inside a string (helper for the `/\n\s*\n/` split). -/
def lastNlIdx (run : Str) : Option Nat :=
  ((List.range run.length).filter (fun i => run.get? i = some '\n')).getLast?

/-- Split on the regex `/\n\s*\n/`: at an LF, the greedy match extends through
the maximal whitespace run up to the last LF inside that run (backtracking so
that the match ends in an LF); no second LF in the run means no match there. -/
def paraSplitGo : Nat → Str → Str → List Str → List Str
  | 0, s, tokRev, accRev => ((tokRev.reverse ++ s) :: accRev).reverse
  | fuel + 1, s, tokRev, accRev =>
    match s with
    | [] => (tokRev.reverse :: accRev).reverse
    | c :: rest =>
      if c = '\n' then
        let run := (c :: rest).takeWhile isJsWs
        match lastNlIdx run with
        | some j =>
          if j ≥ 1 then
            paraSplitGo fuel ((c :: rest).drop (j + 1)) [] (tokRev.reverse :: accRev)
          else paraSplitGo fuel rest (c :: tokRev) accRev
        | none => paraSplitGo fuel rest (c :: tokRev) accRev
      else paraSplitGo fuel rest (c :: tokRev) accRev

/-- `splitIntoParagraphs`: split on blank lines, trim, drop empties. -/
def splitIntoParagraphs (text : Str) : List Str :=
  (((paraSplitGo text.length text [] []).map jsTrim).filter (fun p => !p.isEmpty))

/-- Is `c` an ASCII capital letter (the `[A-Z]` class)? -/
def isCap (c : Char) : Bool :=
  'A' ≤ c && c ≤ 'Z'

/-- Does the whole line match `#{1,6}\s+.+` (a markdown header line)? -/
def lineIsMdHeader (line : Str) : Bool :=
  let hashes := line.takeWhile (fun c => c = '#')
  let rest := line.drop hashes.length
  1 ≤ hashes.length && hashes.length ≤ 6 &&
    (match rest with
     | c :: _ :: _ => isJsWs c
     | _ => false)

/-- Does the whole line match `[A-Z][A-Z\s]{2,}[A-Z]` (an all-caps header)? -/
def lineIsCapsHeader (line : Str) : Bool :=
  line.length ≥ 4 &&
    (match line with
     | c :: rest =>
       isCap c &&
         (match rest.reverse with
          | d :: midRev => isCap d && midRev.all (fun e => isCap e || isJsWs e)
          | [] => false)
     | [] => false)

def lineIsHeader (line : Str) : Bool :=
  lineIsMdHeader line || lineIsCapsHeader line

/-- The JS `text.split(headerPattern)` of `extractSections`: the parts between
whole-line header matches, interleaved (in order) with the captured header
lines themselves (the pattern's single capture group is spliced into the split
result); the LF separators around a header line stay in the neighbouring
parts. -/
def headerSplitGo : List Str → List Str → Bool → List Str → List Str
  | [], curRev, sawHeader, accRev =>
    (strJoin (str "\n") ((if sawHeader then [([] : Str)] else []) ++ curRev.reverse) :: accRev).reverse
  | line :: more, curRev, sawHeader, accRev =>
    if lineIsHeader line then
      headerSplitGo more [] true
        (line :: strJoin (str "\n") ((if sawHeader then [([] : Str)] else []) ++ curRev.reverse ++ [([] : Str)]) :: accRev)
    else
      headerSplitGo more (line :: curRev) sawHeader accRev

def headerSplit (text : Str) : List Str :=
  headerSplitGo (splitStr text (str "\n")) [] false []

/-- The in-loop prefix test `part.match(/^#{1,6}\s+/)` of `extractSections`. -/
def mdHeaderTest (part : Str) : Bool :=
  let hashes := part.takeWhile (fun c => c = '#')
  1 ≤ hashes.length && hashes.length ≤ 6 &&
    (match part.drop hashes.length with
     | c :: _ => isJsWs c
     | [] => false)

/-- The in-loop full-match test `part.match(/^[A-Z][A-Z\s]{2,}[A-Z]$/)`. -/
def capsHeaderTest (part : Str) : Bool :=
  lineIsCapsHeader part

/-- `part.replace(/^#+\s*/, '')`: strip a leading hash run plus following
whitespace (no change when the part does not start with a hash). -/
def stripHashes (part : Str) : Str :=
  match part with
  | '#' :: _ => (part.dropWhile (fun c => c = '#')).dropWhile isJsWs
  | _ => part

/-- `extractSections`: split at header lines (markdown or all-caps); each
non-header part becomes a section under the most recent header; with no
sections and non-blank text, the whole trimmed text is one section with an
empty header. -/
def extractSections (text : Str) : List (Str × Str) :=
  let pieces := headerSplit text
  let final := pieces.foldl
    (fun (st : Str × List (Str × Str)) piece =>
      let part := jsTrim piece
      if mdHeaderTest part || capsHeaderTest part then (stripHashes part, st.2)
      else if part.length > 0 then (st.1, st.2 ++ [(st.1, part)])
      else st)
    ([], [])
  if final.2.isEmpty && (jsTrim text).length > 0 then [([], jsTrim text)]
  else final.2

/-- End positions of the successive matches of `/[.!?]\s+/g` (a sentence-final
punctuation character followed by a maximal whitespace run), scanning left to
right without overlap. -/
def sentenceEndPositionsGo : Nat → Str → Nat → List Nat → List Nat
  | 0, _, _, accRev => accRev.reverse
  | _, [], _, accRev => accRev.reverse
  | fuel + 1, c :: rest, i, accRev =>
    if isSentencePunct c then
      let run := rest.takeWhile isJsWs
      if run.length > 0 then
        sentenceEndPositionsGo fuel (rest.drop run.length) (i + 1 + run.length)
          ((i + 1 + run.length) :: accRev)
      else sentenceEndPositionsGo fuel rest (i + 1) accRev
    else sentenceEndPositionsGo fuel rest (i + 1) accRev

def sentenceEndPositions (s : Str) : List Nat :=
  sentenceEndPositionsGo s.length s 0 []

/-- `findBreakPoint(text, targetPos)` with the default `searchRange = 100`:
prefer a paragraph break, then a sentence end, then a word boundary, else the
target position itself. -/
def findBreakPoint (text : Str) (targetPos : Int) : Int :=
  let len : Int := text.length
  if targetPos ≥ len then len
  else
    let start := max 0 (targetPos - 100)
    let stop := min len (targetPos + 100)
    let searchText := jsSubstring text start stop
    let relativeTarget := targetPos - start
    let paragraphBreak := jsLastIndexOf searchText (str "\n\n") (relativeTarget + 100)
    if paragraphBreak ≠ -1 && paragraphBreak > relativeTarget - 100 then
      start + paragraphBreak + 2
    else
      let bestSentenceEnd :=
        match ((sentenceEndPositions searchText).filter
            (fun p => decide ((p : Int) ≤ relativeTarget + 100))).getLast? with
        | some p => (p : Int)
        | none => -1
      if bestSentenceEnd ≠ -1 && bestSentenceEnd > relativeTarget - 100 then
        start + bestSentenceEnd
      else
        let wordBoundary := jsLastIndexOf searchText (str " ") (relativeTarget + 20)
        if wordBoundary ≠ -1 then start + wordBoundary + 1
        else targetPos

-- ------------------------------------------------------------------
-- types/chunk.ts and lib/chunking/strategies/fixedChunker.ts
-- ------------------------------------------------------------------

/-- `IChunkMetadata` (the `section` field is called `sectionTag` here because
`section` is a Lean keyword). -/
structure IChunkMetadata where
  pageNumber : Option Nat := none
  sectionTag : Option Str := none
  header : Option Str := none
  startChar : Option Int := none
  endChar : Option Int := none
  source : Option Str := none
deriving DecidableEq

/-- `IChunkData`. -/
structure IChunkData where
  content : Str
  charCount : Nat
  tokenCount : Nat
  metadata : IChunkMetadata
deriving DecidableEq

/-- `IChunkingOptions` (without the `strategy` tag, which the strategy
functions themselves never read; the optional fields keep TypeScript's
optionality so that the destructuring defaults of each chunker apply). -/
structure IChunkingOptions where
  chunkSize : Nat
  chunkOverlap : Nat
  minChunkSize : Option Nat := none
  maxChunkSize : Option Nat := none
  preserveSentences : Option Bool := none
deriving DecidableEq

/-- `IPageContent`. -/
structure IPageContent where
  pageNumber : Nat
  text : Str
deriving DecidableEq

/-- `findPageNumber`: map a character offset to a page via the running page
lengths (+1 separator per page); fall back to the last page's number. -/
def findPageNumberGo (charPos : Int) : List IPageContent → Nat → Option Nat
  | [], _ => none
  | page :: rest, currentPos =>
    if currentPos ≤ charPos ∧ charPos < currentPos + (page.text.length : Int) then
      some page.pageNumber
    else findPageNumberGo charPos rest (currentPos + page.text.length + 1)

def findPageNumber (charPos : Int) (pages : List IPageContent) : Option Nat :=
  match findPageNumberGo charPos pages 0 with
  | some n => some n
  | none => (pages.getLast?).map (fun p => p.pageNumber)

/-- The `while (startPos < cleanedText.length)` loop of `fixedChunk`, with
explicit fuel: one unit per iteration, `none` when the fuel runs out (the
source loop can genuinely fail to terminate, see the divergence results). -/
def fixedChunkGo (cleaned : Str) (chunkSize chunkOverlap minChunk : Nat)
    (preserve : Bool) (pages : Option (List IPageContent)) :
    Nat → Int → List IChunkData → Option (List IChunkData)
  | 0, startPos, accRev =>
    if startPos < (cleaned.length : Int) then none else some accRev.reverse
  | fuel + 1, startPos, accRev =>
    if startPos < (cleaned.length : Int) then
      let endPos0 : Int := startPos + chunkSize
      let endPos :=
        if preserve ∧ endPos0 < (cleaned.length : Int) then findBreakPoint cleaned endPos0
        else endPos0
      let chunkContent := jsTrim (jsSubstring cleaned startPos endPos)
      if chunkContent.length < minChunk ∧ startPos + chunkSize < (cleaned.length : Int) then
        fixedChunkGo cleaned chunkSize chunkOverlap minChunk preserve pages fuel
          (endPos - chunkOverlap) accRev
      else
        let pageNumber :=
          match pages with
          | some ps => findPageNumber startPos ps
          | none => none
        let chunk : IChunkData :=
          { content := chunkContent
            charCount := chunkContent.length
            tokenCount := estimateTokens chunkContent
            metadata := { startChar := some startPos, endChar := some endPos,
                          pageNumber := pageNumber } }
        let s1 := endPos - chunkOverlap
        let s2 := if s1 ≤ startPos then endPos else s1
        fixedChunkGo cleaned chunkSize chunkOverlap minChunk preserve pages fuel s2
          (chunk :: accRev)
    else some accRev.reverse

/-- `fixedChunk` on already-cleaned text, with fuel `length + 1` (enough for
every terminating configuration proved below). -/
def fixedChunkOn (cleaned : Str) (options : IChunkingOptions)
    (pages : Option (List IPageContent)) : Option (List IChunkData) :=
  fixedChunkGo cleaned options.chunkSize options.chunkOverlap
    (options.minChunkSize.getD 100) (options.preserveSentences.getD true) pages
    (cleaned.length + 1) 0 []

/-- `fixedChunk(text, options, pages?)`. -/
def fixedChunk (text : Str) (options : IChunkingOptions)
    (pages : Option (List IPageContent)) : Option (List IChunkData) :=
  fixedChunkOn (cleanTextForChunking text) options pages

/-- The source `while` loop of `fixedChunk` terminates on this input: some
amount of fuel completes the loop. -/
def fixedChunkTerminates (text : Str) (options : IChunkingOptions) : Prop :=
  ∃ fuel out, fixedChunkGo (cleanTextForChunking text) options.chunkSize
    options.chunkOverlap (options.minChunkSize.getD 100)
    (options.preserveSentences.getD true) none fuel 0 [] = some out

/-- The source `while` loop of `fixedChunk` runs forever on this input: no
amount of fuel completes the loop. -/
def fixedChunkDiverges (text : Str) (options : IChunkingOptions) : Prop :=
  ∀ fuel, fixedChunkGo (cleanTextForChunking text) options.chunkSize
    options.chunkOverlap (options.minChunkSize.getD 100)
    (options.preserveSentences.getD true) none fuel 0 [] = none

-- ------------------------------------------------------------------
-- lib/chunking/strategies/recursiveChunker.ts
-- ------------------------------------------------------------------

/-- The prioritized separator list of the recursive chunker. -/
def SEPARATORS : List Str :=
  [str "\n\n\n", str "\n\n", str "\n", str ". ", str ", ", str " ", []]

/-- The last-resort character split (`for (i = 0; i < len; i += chunkSize)`);
fuel-bounded because the source loops forever when `chunkSize = 0` (a
configuration never reached from the exported entry points). -/
def charSplitGo (chunkSize : Nat) : Nat → Str → List Str
  | 0, _ => []
  | fuel + 1, t =>
    if t.isEmpty then []
    else t.take chunkSize :: charSplitGo chunkSize fuel (t.drop chunkSize)

def charSplit (chunkSize : Nat) (t : Str) : List Str :=
  charSplitGo chunkSize (t.length + 1) t

/-- `splitRecursively(text, chunkSize, separators)`. -/
def splitRecursively (chunkSize : Nat) : List Str → Str → List Str
  | [], t => [t]
  | sep :: rest, t =>
    if t.length ≤ chunkSize then [t]
    else if sep.isEmpty then charSplit chunkSize t
    else
      let parts := (splitStr t sep).filter (fun p => !(jsTrim p).isEmpty)
      if parts.length = 1 then splitRecursively chunkSize rest t
      else parts.flatMap
        (fun part =>
          if part.length ≤ chunkSize then [part]
          else splitRecursively chunkSize rest part)

/-- `getOverlapText(text, overlapSize)`: prefer the last complete sentence of
the tail window, else cut at a word boundary, else the raw tail. -/
def getOverlapText (text : Str) (overlapSize : Nat) : Str :=
  if text.length ≤ overlapSize then text
  else
    let overlapStart : Int := (text.length : Int) - overlapSize
    let sentences := splitIntoSentences (jsSubstringFrom text overlapStart)
    if sentences.length > 1 then strJoin (str " ") (sentences.drop (sentences.length - 1))
    else
      let lastSpace := jsLastIndexOf text (str " ") (overlapStart + 50)
      if lastSpace > overlapStart - 50 then jsSubstringFrom text (lastSpace + 1)
      else jsSubstringFrom text overlapStart

/-- One step of the merge loop of `recursiveChunk`: state is
(currentChunk, startChar, chunks so far). -/
def recursiveMergeStep (cleaned : Str) (chunkSize minChunk : Nat) (chunkOverlap : Nat)
    (st : Str × Int × List IChunkData) (piece : Str) : Str × Int × List IChunkData :=
  let currentChunk := st.1
  let startChar := st.2.1
  let chunks := st.2.2
  if currentChunk.length + piece.length ≤ chunkSize then
    (currentChunk ++ (if currentChunk.isEmpty then [] else str " ") ++ piece, startChar, chunks)
  else
    let chunks1 :=
      if currentChunk.length ≥ minChunk then
        chunks ++ [{ content := jsTrim currentChunk
                     charCount := (jsTrim currentChunk).length
                     tokenCount := estimateTokens currentChunk
                     metadata := { startChar := some startChar } }]
      else chunks
    let overlapText := getOverlapText currentChunk chunkOverlap
    let startChar1 := jsIndexOf cleaned piece startChar
    (overlapText ++ (if overlapText.isEmpty then [] else str " ") ++ piece, startChar1, chunks1)

/-- `recursiveChunk` on already-cleaned text. -/
def recursiveChunkOn (cleaned : Str) (options : IChunkingOptions) : List IChunkData :=
  let chunkSize := options.chunkSize
  let chunkOverlap := options.chunkOverlap
  let minChunk := options.minChunkSize.getD 100
  let rawChunks := splitRecursively chunkSize SEPARATORS cleaned
  let final := rawChunks.foldl (recursiveMergeStep cleaned chunkSize minChunk chunkOverlap)
    ([], 0, [])
  if (jsTrim final.1).length ≥ minChunk then
    final.2.2 ++ [{ content := jsTrim final.1
                    charCount := (jsTrim final.1).length
                    tokenCount := estimateTokens final.1
                    metadata := { startChar := some final.2.1 } }]
  else final.2.2

/-- `recursiveChunk(text, options)`. -/
def recursiveChunk (text : Str) (options : IChunkingOptions) : List IChunkData :=
  recursiveChunkOn (cleanTextForChunking text) options

-- ------------------------------------------------------------------
-- lib/chunking/strategies/semanticChunker.ts and pageChunker.ts
-- ------------------------------------------------------------------

/-- `createChunkData(content, header?)`. -/
def createChunkData (content : Str) (header : Option Str) : IChunkData :=
  let trimmed := jsTrim content
  { content := trimmed
    charCount := trimmed.length
    tokenCount := estimateTokens trimmed
    metadata := { header := header } }

/-- `getLastSentences(text, targetLength)`: accumulate whole sentences from the
end while the accumulation stays within the target length. -/
def getLastSentencesGo (targetLength : Nat) : List Str → Str → Str
  | [], result => result
  | s :: restRev, result =>
    let newResult := s ++ (if result.isEmpty then [] else str " " ++ result)
    if newResult.length > targetLength then result
    else getLastSentencesGo targetLength restRev newResult

def getLastSentences (text : Str) (targetLength : Nat) : Str :=
  getLastSentencesGo targetLength (splitIntoSentences text).reverse []

/-- `getSemanticOverlap(text, targetLength)`. -/
def getSemanticOverlap (text : Str) (targetLength : Nat) : Str :=
  let paragraphs := splitIntoParagraphs text
  match paragraphs.getLast? with
  | some lastParagraph =>
    if lastParagraph.length ≤ targetLength then lastParagraph
    else getLastSentences text targetLength
  | none => getLastSentences text targetLength

/-- `chunkBySentences(text, chunkSize, chunkOverlap, minChunkSize)`. -/
def chunkBySentences (text : Str) (chunkSize chunkOverlap minChunk : Nat) :
    List IChunkData :=
  let final := (splitIntoSentences text).foldl
    (fun (st : Str × List IChunkData) sentence =>
      let currentChunk := st.1
      if currentChunk.length + sentence.length + 1 > chunkSize then
        let chunks1 :=
          if currentChunk.length ≥ minChunk then st.2 ++ [createChunkData currentChunk none]
          else st.2
        let lastSentences := getLastSentences currentChunk chunkOverlap
        (lastSentences ++ (if lastSentences.isEmpty then [] else str " ") ++ sentence, chunks1)
      else (currentChunk ++ (if currentChunk.isEmpty then [] else str " ") ++ sentence, st.2))
    ([], [])
  if final.1.length ≥ minChunk then final.2 ++ [createChunkData final.1 none]
  else final.2

/-- The per-section paragraph loop of `semanticChunk`. -/
def semanticSectionChunks (chunkSize chunkOverlap minChunk : Nat)
    (header : Str) (paragraphs : List Str) : List IChunkData :=
  let final := paragraphs.foldl
    (fun (st : Str × List IChunkData) paragraph =>
      let currentChunk := st.1
      if paragraph.length > chunkSize then
        let chunks1 :=
          if currentChunk.length ≥ minChunk then st.2 ++ [createChunkData currentChunk (some header)]
          else st.2
        let sentenceChunks := (chunkBySentences paragraph chunkSize chunkOverlap minChunk).map
          (fun sc => { sc with metadata := { sc.metadata with header := some header } })
        ([], chunks1 ++ sentenceChunks)
      else if currentChunk.length + paragraph.length + 2 > chunkSize then
        let chunks1 :=
          if currentChunk.length ≥ minChunk then st.2 ++ [createChunkData currentChunk (some header)]
          else st.2
        let overlap := getSemanticOverlap currentChunk chunkOverlap
        (overlap ++ (if overlap.isEmpty then [] else str "\n\n") ++ paragraph, chunks1)
      else (currentChunk ++ (if currentChunk.isEmpty then [] else str "\n\n") ++ paragraph, st.2))
    ([], [])
  if final.1.length ≥ minChunk then final.2 ++ [createChunkData final.1 (some header)]
  else final.2

/-- `semanticChunk` on already-cleaned text. -/
def semanticChunkOn (cleaned : Str) (options : IChunkingOptions) : List IChunkData :=
  let chunkSize := options.chunkSize
  let chunkOverlap := options.chunkOverlap
  let minChunk := options.minChunkSize.getD 100
  (extractSections cleaned).flatMap
    (fun sec =>
      semanticSectionChunks chunkSize chunkOverlap minChunk sec.1 (splitIntoParagraphs sec.2))

/-- `semanticChunk(text, options)`. -/
def semanticChunk (text : Str) (options : IChunkingOptions) : List IChunkData :=
  semanticChunkOn (cleanTextForChunking text) options

/-- `pageChunk(pages, options)`: per page, one chunk when the cleaned page text
fits in `chunkSize`, else the fixed chunker on that page, retagged with the
page number (`Option`-valued because it delegates to the fuel-bounded fixed
chunker). -/
def pageChunkStep (options : IChunkingOptions) (acc : Option (List IChunkData))
    (page : IPageContent) : Option (List IChunkData) :=
  match acc with
  | none => none
  | some chunks =>
    let cleanedText := cleanTextForChunking page.text
    if cleanedText.length ≤ options.chunkSize then
      if cleanedText.length > 0 then
        some (chunks ++ [{ content := cleanedText
                           charCount := cleanedText.length
                           tokenCount := estimateTokens cleanedText
                           metadata := { pageNumber := some page.pageNumber } }])
      else some chunks
    else
      match fixedChunk cleanedText options none with
      | none => none
      | some pageChunks =>
        some (chunks ++ pageChunks.map
          (fun c => { c with metadata := { c.metadata with pageNumber := some page.pageNumber } }))

def pageChunk (pages : List IPageContent) (options : IChunkingOptions) :
    Option (List IChunkData) :=
  pages.foldl (pageChunkStep options) (some [])

-- ------------------------------------------------------------------
-- types/embadding.ts and baseEmbeddingProvider.ts
-- ------------------------------------------------------------------

/-- `EmbeddingResult` (the vector type is a parameter). -/
structure EmbeddingResult (v : Type) where
  embedding : v
  index : Nat
  tokenCount : Option Nat := none
deriving DecidableEq

structure EmbUsage where
  promptTokens : Nat
  totalTokens : Nat
deriving DecidableEq

/-- `EmbeddingResponse`. -/
structure EmbeddingResponse (v : Type) where
  embeddings : List (EmbeddingResult v)
  model : Str
  dimensions : Nat
  usage : Option EmbUsage := none
deriving DecidableEq

/-- The observable fields of an `EmbeddingError` instance: `code`,
`retryable`, whether it is an `EmbeddingRateLimitError` (for the
`instanceof` test), and its `retryAfterMs`. -/
structure EmbErrData where
  code : Str
  retryable : Bool
  rateLimit : Bool
  retryAfterMs : Option Nat
deriving DecidableEq

/-- A thrown JS error: an `EmbeddingError` instance carrying its data and
optional `originalError`, or any other `Error` (`plain`). -/
inductive EmbErr where
  | typed (d : EmbErrData) (original : Option EmbErr)
  | plain

/-- The terminal error built after the retry loop:
`new EmbeddingError('Failed after …', name, 'MAX_RETRIES_EXCEEDED', false, lastError)`. -/
def embWrapMaxRetries (lastError : Option EmbErr) : EmbErr :=
  .typed { code := str "MAX_RETRIES_EXCEEDED", retryable := false,
           rateLimit := false, retryAfterMs := none } lastError

/-- `error instanceof EmbeddingError && !error.retryable`. -/
def embNonRetryable : EmbErr → Bool
  | .typed d _ => !d.retryable
  | .plain => false

/-- `error instanceof EmbeddingRateLimitError && error.retryAfterMs`
(JS truthiness: `retryAfterMs = 0` does not take the branch). -/
def embRateLimitRetryAfter : EmbErr → Bool
  | .typed d _ =>
    d.rateLimit && (match d.retryAfterMs with | some ms => ms != 0 | none => false)
  | .plain => false

/-- The `for (attempt = 0; attempt <= maxRetries; attempt++)` loop of
`BaseEmbeddingProvider.withRetry`; `op n` is the outcome of the `n`-th
invocation of the operation, the returned `Nat` counts invocations.
Sleeps (backoff and retry-after) have no observable effect here. -/
def embWithRetryGo (op : Nat → Except EmbErr α) (maxRetries : Nat) :
    Nat → Nat → Option EmbErr → Nat → (Except EmbErr α) × Nat
  | 0, _, lastError, count => (.error (embWrapMaxRetries lastError), count)
  | fuel + 1, attempt, _lastError, count =>
    match op attempt with
    | .ok v => (.ok v, count + 1)
    | .error e =>
      if embNonRetryable e then (.error e, count + 1)
      else if embRateLimitRetryAfter e then
        embWithRetryGo op maxRetries fuel (attempt + 1) (some e) (count + 1)
      else if attempt = maxRetries then (.error (embWrapMaxRetries (some e)), count + 1)
      else embWithRetryGo op maxRetries fuel (attempt + 1) (some e) (count + 1)

/-- `BaseEmbeddingProvider.withRetry` (result, number of invocations). -/
def embWithRetry (op : Nat → Except EmbErr α) (maxRetries : Nat) :
    (Except EmbErr α) × Nat :=
  embWithRetryGo op maxRetries (maxRetries + 1) 0 none 0

/-- The index-reassignment of `mergeResponses`
(`index: currentIndex++` over the flattened embeddings). -/
def reassignFrom (k : Nat) : List (EmbeddingResult v) → List (EmbeddingResult v)
  | [] => []
  | e :: rest => { e with index := k } :: reassignFrom (k + 1) rest

/-- The usage totals of `mergeResponses` (missing usage counts as 0). -/
def sumUsage (responses : List (EmbeddingResponse v)) : EmbUsage :=
  responses.foldl
    (fun acc r =>
      { promptTokens := acc.promptTokens + ((r.usage.map (fun u => u.promptTokens)).getD 0)
        totalTokens := acc.totalTokens + ((r.usage.map (fun u => u.totalTokens)).getD 0) })
    { promptTokens := 0, totalTokens := 0 }

/-- `BaseEmbeddingProvider.mergeResponses`. -/
def mergeResponses : List (EmbeddingResponse v) → Except EmbErr (EmbeddingResponse v)
  | [] => .error (.typed { code := str "EMPTY_RESPONSE", retryable := false,
                           rateLimit := false, retryAfterMs := none } none)
  | [r] => .ok r
  | r :: r2 :: rest =>
    .ok { embeddings := reassignFrom 0 ((r :: r2 :: rest).flatMap (fun x => x.embeddings))
          model := r.model
          dimensions := r.dimensions
          usage := some (sumUsage (r :: r2 :: rest)) }

/-- The batch slicing of `processBatches`
(`items.slice(i, i + maxBatchSize)` for `i += maxBatchSize`); fuel-bounded
because the source loops forever when `maxBatchSize = 0`. -/
def makeBatchesGo (maxBatchSize : Nat) : Nat → List τ → List (List τ)
  | 0, _ => []
  | fuel + 1, items =>
    if items.isEmpty then []
    else items.take maxBatchSize :: makeBatchesGo maxBatchSize fuel (items.drop maxBatchSize)

def makeBatches (maxBatchSize : Nat) (items : List τ) : List (List τ) :=
  makeBatchesGo maxBatchSize (items.length + 1) items

/-- `BaseEmbeddingProvider.processBatches` with a processor that succeeds on
each sub-batch. -/
def processBatches (maxBatchSize : Nat) (processor : List τ → EmbeddingResponse v)
    (items : List τ) : Except EmbErr (EmbeddingResponse v) :=
  mergeResponses ((makeBatches maxBatchSize items).map processor)

/-- `OpenAIEmbeddingProvider.embedBatch`: empty input short-circuits; an input
longer than `maxBatchSize` goes through `processBatches`; `api` stands for a
succeeding `embedBatchInternal` (one HTTP call mapped to an
`EmbeddingResponse`). -/
def openaiEmbedBatch (maxBatchSize : Nat) (model : Str) (dims : Nat)
    (api : List τ → EmbeddingResponse v) (texts : List τ) :
    Except EmbErr (EmbeddingResponse v) :=
  if texts.isEmpty then .ok { embeddings := [], model := model, dimensions := dims }
  else if maxBatchSize < texts.length then processBatches maxBatchSize api texts
  else .ok (api texts)

/-- The embeddings list built by `embedBatchSequential`
(`texts.map((text, index) => ({embedding: await embed(text), index}))`). -/
def seqEmbeddingsFrom (embedOne : τ → List σ) (k : Nat) :
    List τ → List (EmbeddingResult (List σ))
  | [] => []
  | t :: ts => { embedding := embedOne t, index := k } :: seqEmbeddingsFrom embedOne (k + 1) ts

/-- `OllamaEmbeddingProvider.embedBatch`: empty input short-circuits; then the
native batch call, falling back on any error to one `embed` per text
(`embedOne` is the per-text embedding the fallback observes). -/
def ollamaEmbedBatch (model : Str) (dims : Nat)
    (native : List τ → Except EmbErr (EmbeddingResponse (List σ)))
    (embedOne : τ → List σ) (texts : List τ) : EmbeddingResponse (List σ) :=
  if texts.isEmpty then { embeddings := [], model := model, dimensions := dims }
  else
    match native texts with
    | .ok r => r
    | .error _ =>
      let embeddings := seqEmbeddingsFrom embedOne 0 texts
      { embeddings := embeddings
        model := model
        dimensions :=
          match embeddings.head? with
          | some e => if e.embedding.length = 0 then dims else e.embedding.length
          | none => dims }

/-- Spec-side ideal batch result from position `k`: the `i`-th embedding
carries index `k + i` and is the embedding of the `i`-th text. -/
def idealFrom (f : τ → v) : Nat → List τ → List (EmbeddingResult v)
  | _, [] => []
  | k, t :: ts => { embedding := f t, index := k } :: idealFrom f (k + 1) ts

/-- Spec-side ideal batch result: the `i`-th embedding carries index `i` and
is the embedding of the `i`-th input text (the ordering guarantee the spec
states for `embedBatch`). -/
def idealEmbeddings (f : τ → v) (texts : List τ) : List (EmbeddingResult v) :=
  idealFrom f 0 texts

-- ------------------------------------------------------------------
-- types/llm.ts and openaiLLMProvider.ts (BaseLLMProvider.withRetry)
-- ------------------------------------------------------------------

/-- The observable fields of an `LLMError` instance (mirrors `EmbErrData`;
the two error hierarchies are distinct classes in the source). -/
structure LLMErrData where
  code : Str
  retryable : Bool
  rateLimit : Bool
  retryAfterMs : Option Nat
deriving DecidableEq

inductive LLMErr where
  | typed (d : LLMErrData) (original : Option LLMErr)
  | plain

/-- `new LLMError('Failed after …', name, 'MAX_RETRIES_EXCEEDED', false, lastError)`. -/
def llmWrapMaxRetries (lastError : Option LLMErr) : LLMErr :=
  .typed { code := str "MAX_RETRIES_EXCEEDED", retryable := false,
           rateLimit := false, retryAfterMs := none } lastError

/-- `error instanceof LLMError && !error.retryable`. -/
def llmNonRetryable : LLMErr → Bool
  | .typed d _ => !d.retryable
  | .plain => false

/-- `error instanceof LLMRateLimitError && error.retryAfterMs`. -/
def llmRateLimitRetryAfter : LLMErr → Bool
  | .typed d _ =>
    d.rateLimit && (match d.retryAfterMs with | some ms => ms != 0 | none => false)
  | .plain => false

/-- The retry loop of `BaseLLMProvider.withRetry` (line-for-line the same
control flow as the embedding one). -/
def llmWithRetryGo (op : Nat → Except LLMErr α) (maxRetries : Nat) :
    Nat → Nat → Option LLMErr → Nat → (Except LLMErr α) × Nat
  | 0, _, lastError, count => (.error (llmWrapMaxRetries lastError), count)
  | fuel + 1, attempt, _lastError, count =>
    match op attempt with
    | .ok v => (.ok v, count + 1)
    | .error e =>
      if llmNonRetryable e then (.error e, count + 1)
      else if llmRateLimitRetryAfter e then
        llmWithRetryGo op maxRetries fuel (attempt + 1) (some e) (count + 1)
      else if attempt = maxRetries then (.error (llmWrapMaxRetries (some e)), count + 1)
      else llmWithRetryGo op maxRetries fuel (attempt + 1) (some e) (count + 1)

/-- `BaseLLMProvider.withRetry` (result, number of invocations). -/
def llmWithRetry (op : Nat → Except LLMErr α) (maxRetries : Nat) :
    (Except LLMErr α) × Nat :=
  llmWithRetryGo op maxRetries (maxRetries + 1) 0 none 0

-- ------------------------------------------------------------------
-- Finish-reason mappings (anthropicLLMProvider.ts / googleGeminiLLMProvider.ts)
-- ------------------------------------------------------------------

/-- The normalized finish reasons of `ChatCompletionResponse`
(`null` is modelled as `none`). -/
inductive FinishReason where
  | stop
  | length
  | content_filter
  | error
deriving DecidableEq

/-- `AnthropicLLMProvider.mapFinishReason(reason: string | null)`. -/
def anthropicMapFinishReason (reason : Option Str) : Option FinishReason :=
  match reason with
  | some s =>
    if s = str "end_turn" ∨ s = str "stop_sequence" then some .stop
    else if s = str "max_tokens" then some .length
    else none
  | none => none

/-- `GoogleLLMProvider.mapFinishReason(reason: string)`. -/
def googleMapFinishReason (reason : Str) : Option FinishReason :=
  if reason = str "STOP" then some .stop
  else if reason = str "MAX_TOKENS" then some .length
  else if reason = str "SAFETY" ∨ reason = str "RECITATION" then some .content_filter
  else none

-- ------------------------------------------------------------------
-- AnthropicLLMProvider.formatMessages
-- ------------------------------------------------------------------

inductive MessageRole where
  | system
  | user
  | assistant
deriving DecidableEq

structure ChatMessage where
  role : MessageRole
  content : Str
  name : Option Str := none
deriving DecidableEq

/-- The messages Anthropic accepts (roles `user`/`assistant` only are ever
produced; the role field keeps the shared type). -/
structure AnthropicMessage where
  role : MessageRole
  content : Str
deriving DecidableEq

/-- `AnthropicLLMProvider.formatMessages`: strip system messages into a
separate prompt (JS truthiness: an empty accumulated prompt is replaced, not
joined), then prepend a synthetic `user: Hello` turn when the first remaining
message is not user-role. -/
def anthropicFormatStep (st : Option Str × List AnthropicMessage) (m : ChatMessage) :
    Option Str × List AnthropicMessage :=
  match m.role with
  | .system =>
    (some (match st.1 with
           | some s => if s.isEmpty then m.content else s ++ str "\n\n" ++ m.content
           | none => m.content),
     st.2)
  | r => (st.1, st.2 ++ [{ role := r, content := m.content }])

def anthropicFormatMessages (messages : List ChatMessage) :
    Option Str × List AnthropicMessage :=
  let folded := messages.foldl anthropicFormatStep (none, [])
  match folded.2 with
  | [] => (folded.1, [])
  | f :: rest =>
    if f.role ≠ .user then (folded.1, ⟨.user, str "Hello"⟩ :: f :: rest)
    else (folded.1, f :: rest)

/-- Spec-side: the contents of the system-role messages, in order. -/
def systemContents : List ChatMessage → List Str
  | [] => []
  | m :: rest =>
    match m.role with
    | .system => m.content :: systemContents rest
    | _ => systemContents rest

/-- Spec-side: the non-system messages, in order, as Anthropic messages. -/
def nonSystemMessages : List ChatMessage → List AnthropicMessage
  | [] => []
  | m :: rest =>
    match m.role with
    | .system => nonSystemMessages rest
    | r => { role := r, content := m.content } :: nonSystemMessages rest

/-- Spec-side: contents joined by a blank line. -/
def joinBlank : List Str → Str
  | [] => []
  | [c] => c
  | c :: rest => c ++ str "\n\n" ++ joinBlank rest

-- ------------------------------------------------------------------
-- Helper lemmas
-- ------------------------------------------------------------------

theorem dropWhile_idem (p : Char → Bool) (l : Str) :
    (l.dropWhile p).dropWhile p = l.dropWhile p := by
  induction l with
  | nil => rfl
  | cons c t ih =>
    by_cases h : p c
    · simp [List.dropWhile_cons, h, ih]
    · simp [List.dropWhile_cons, h]

theorem dropWhile_head_not (p : Char → Bool) (l : Str) (c : Char) (t : Str)
    (h : l.dropWhile p = c :: t) : p c = false := by
  induction l with
  | nil => simp [List.dropWhile] at h
  | cons a r ih =>
    by_cases ha : p a
    · simp [List.dropWhile_cons, ha] at h
      exact ih h
    · simp [List.dropWhile_cons, ha] at h
      rw [← h.1]
      simp [ha]

/-- Removing trailing whitespace (the second half of `jsTrim`). -/
def trimTrail (s : Str) : Str :=
  (s.reverse.dropWhile isJsWs).reverse

theorem jsTrim_eq_trail_lead (s : Str) : jsTrim s = trimTrail (s.dropWhile isJsWs) := rfl

theorem trimTrail_idem (s : Str) : trimTrail (trimTrail s) = trimTrail s := by
  simp [trimTrail, dropWhile_idem]

theorem dropWhile_trimTrail (s : Str) (h : s.dropWhile isJsWs = s) :
    (trimTrail s).dropWhile isJsWs = trimTrail s := by
  have hsplit : s = trimTrail s ++ (s.reverse.takeWhile isJsWs).reverse := by
    calc s = s.reverse.reverse := (s.reverse_reverse).symm
    _ = (s.reverse.takeWhile isJsWs ++ s.reverse.dropWhile isJsWs).reverse := by
        rw [List.takeWhile_append_dropWhile]
    _ = trimTrail s ++ (s.reverse.takeWhile isJsWs).reverse := by
        rw [List.reverse_append]
        rfl
  cases htt : trimTrail s with
  | nil => rfl
  | cons c t =>
    have hs : s = c :: (t ++ (s.reverse.takeWhile isJsWs).reverse) := by
      calc s = trimTrail s ++ (s.reverse.takeWhile isJsWs).reverse := hsplit
      _ = c :: (t ++ (s.reverse.takeWhile isJsWs).reverse) := by rw [htt]; simp
    have hc : isJsWs c = false := by
      apply dropWhile_head_not isJsWs s c (t ++ (s.reverse.takeWhile isJsWs).reverse)
      rw [h]
      exact hs
    simp [List.dropWhile_cons, hc]

theorem jsTrim_idem (s : Str) : jsTrim (jsTrim s) = jsTrim s := by
  rw [jsTrim_eq_trail_lead s, jsTrim_eq_trail_lead]
  rw [dropWhile_trimTrail (s.dropWhile isJsWs) (dropWhile_idem isJsWs s)]
  exact trimTrail_idem _

theorem jsTrim_clean (text : Str) :
    jsTrim (cleanTextForChunking text) = cleanTextForChunking text := by
  simp [cleanTextForChunking, jsTrim_idem]

theorem jsSubstring_zero_ge (s : Str) (b : Int) (hb : (s.length : Int) ≤ b) :
    jsSubstring s 0 b = s := by
  have h0 : clampIdx s.length 0 = 0 := by
    simp only [clampIdx]
    omega
  have h1 : clampIdx s.length b = s.length := by
    simp only [clampIdx]
    omega
  simp [jsSubstring, h0, h1]

-- ------------------------------------------------------------------
-- C9
-- ------------------------------------------------------------------

/-- C9: `splitIntoSentences("Dr. Smith went home. He was tired.")` returns
exactly `["Dr. Smith went home.", "He was tired."]`: the abbreviation `Dr.`
does not split, the substitution is fully reversed, and the split happens at
the sentence-final period followed by a space. -/
theorem C9_splitIntoSentences_abbrev :
    splitIntoSentences (str "Dr. Smith went home. He was tired.") =
      [str "Dr. Smith went home.", str "He was tired."] := by
  rfl

-- ------------------------------------------------------------------
-- C2 / C6: the retry cores
-- ------------------------------------------------------------------

theorem embWithRetryGo_all_retryable {α : Type} (op : Nat → Except EmbErr α)
    (maxRetries : Nat) (e : EmbErr)
    (h : ∀ n, ∃ d o, op n = .error (.typed d o) ∧ d.retryable = true)
    (hlast : op maxRetries = .error e) :
    ∀ fuel attempt lastErr count, attempt + fuel = maxRetries + 1 → 1 ≤ fuel →
      embWithRetryGo op maxRetries fuel attempt lastErr count =
        (.error (embWrapMaxRetries (some e)), count + fuel) := by
  intro fuel
  induction fuel with
  | zero => intro _ _ _ _ hf; omega
  | succ f ih =>
    intro attempt lastErr count hsum _
    obtain ⟨d, o, hop, hret⟩ := h attempt
    have hnr : embNonRetryable (.typed d o) = false := by
      simp [embNonRetryable, hret]
    by_cases hf : f = 0
    · subst hf
      have ha : attempt = maxRetries := by omega
      subst ha
      have he : EmbErr.typed d o = e := by
        rw [hop] at hlast
        exact (Except.error.inj hlast)
      simp only [embWithRetryGo, hop, hnr, Bool.false_eq_true, if_false]
      by_cases hrl : embRateLimitRetryAfter (.typed d o) = true
      · simp [hrl, embWithRetryGo, he]
      · simp [hrl, he]
    · have ha : ¬(attempt = maxRetries) := by omega
      have hstep := ih (attempt + 1) (some (.typed d o)) (count + 1) (by omega) (by omega)
      simp only [embWithRetryGo, hop, hnr, Bool.false_eq_true, if_false]
      by_cases hrl : embRateLimitRetryAfter (.typed d o) = true
      · simp only [hrl, if_true, hstep]
        congr 1
        omega
      · simp only [hrl, Bool.false_eq_true, if_false, ha, hstep]
        congr 1
        omega

theorem llmWithRetryGo_all_retryable {α : Type} (op : Nat → Except LLMErr α)
    (maxRetries : Nat) (e : LLMErr)
    (h : ∀ n, ∃ d o, op n = .error (.typed d o) ∧ d.retryable = true)
    (hlast : op maxRetries = .error e) :
    ∀ fuel attempt lastErr count, attempt + fuel = maxRetries + 1 → 1 ≤ fuel →
      llmWithRetryGo op maxRetries fuel attempt lastErr count =
        (.error (llmWrapMaxRetries (some e)), count + fuel) := by
  intro fuel
  induction fuel with
  | zero => intro _ _ _ _ hf; omega
  | succ f ih =>
    intro attempt lastErr count hsum _
    obtain ⟨d, o, hop, hret⟩ := h attempt
    have hnr : llmNonRetryable (.typed d o) = false := by
      simp [llmNonRetryable, hret]
    by_cases hf : f = 0
    · subst hf
      have ha : attempt = maxRetries := by omega
      subst ha
      have he : LLMErr.typed d o = e := by
        rw [hop] at hlast
        exact (Except.error.inj hlast)
      simp only [llmWithRetryGo, hop, hnr, Bool.false_eq_true, if_false]
      by_cases hrl : llmRateLimitRetryAfter (.typed d o) = true
      · simp [hrl, llmWithRetryGo, he]
      · simp [hrl, he]
    · have ha : ¬(attempt = maxRetries) := by omega
      have hstep := ih (attempt + 1) (some (.typed d o)) (count + 1) (by omega) (by omega)
      simp only [llmWithRetryGo, hop, hnr, Bool.false_eq_true, if_false]
      by_cases hrl : llmRateLimitRetryAfter (.typed d o) = true
      · simp only [hrl, if_true, hstep]
        congr 1
        omega
      · simp only [hrl, Bool.false_eq_true, if_false, ha, hstep]
        congr 1
        omega

/-- C2: an operation that throws a retryable error on every invocation is
invoked exactly `maxRetries + 1` times by `withRetry`, which then throws the
`MAX_RETRIES_EXCEEDED` terminal error (retryable = false) wrapping the last
underlying error — in both the embedding and the LLM retry cores. -/
theorem C2_retry_bound {α β : Type} (opE : Nat → Except EmbErr α)
    (opL : Nat → Except LLMErr β) (maxRetries : Nat) (eE : EmbErr) (eL : LLMErr)
    (hE : ∀ n, ∃ d o, opE n = .error (.typed d o) ∧ d.retryable = true)
    (hL : ∀ n, ∃ d o, opL n = .error (.typed d o) ∧ d.retryable = true)
    (hEl : opE maxRetries = .error eE) (hLl : opL maxRetries = .error eL) :
    embWithRetry opE maxRetries =
      (.error (.typed { code := str "MAX_RETRIES_EXCEEDED", retryable := false,
                        rateLimit := false, retryAfterMs := none } (some eE)),
       maxRetries + 1) ∧
    llmWithRetry opL maxRetries =
      (.error (.typed { code := str "MAX_RETRIES_EXCEEDED", retryable := false,
                        rateLimit := false, retryAfterMs := none } (some eL)),
       maxRetries + 1) := by
  constructor
  · have := embWithRetryGo_all_retryable opE maxRetries eE hE hEl (maxRetries + 1) 0 none 0
      (by omega) (by omega)
    simpa [embWithRetry, embWrapMaxRetries] using this
  · have := llmWithRetryGo_all_retryable opL maxRetries eL hL hLl (maxRetries + 1) 0 none 0
      (by omega) (by omega)
    simpa [llmWithRetry, llmWrapMaxRetries] using this

/-- C2 witness: with `maxRetries = 3` and an operation that always throws a
retryable 500-class error, both cores invoke the operation exactly 4 times
and throw the terminal `MAX_RETRIES_EXCEEDED` wrap. -/
theorem C2_retry_bound_witness :
    embWithRetry (fun _ : Nat =>
        (.error (.typed { code := str "HTTP_500", retryable := true,
                          rateLimit := false, retryAfterMs := none } none) :
          Except EmbErr Unit)) 3 =
      (.error (.typed { code := str "MAX_RETRIES_EXCEEDED", retryable := false,
                        rateLimit := false, retryAfterMs := none }
        (some (.typed { code := str "HTTP_500", retryable := true,
                        rateLimit := false, retryAfterMs := none } none))), 4) ∧
    llmWithRetry (fun _ : Nat =>
        (.error (.typed { code := str "HTTP_500", retryable := true,
                          rateLimit := false, retryAfterMs := none } none) :
          Except LLMErr Unit)) 3 =
      (.error (.typed { code := str "MAX_RETRIES_EXCEEDED", retryable := false,
                        rateLimit := false, retryAfterMs := none }
        (some (.typed { code := str "HTTP_500", retryable := true,
                        rateLimit := false, retryAfterMs := none } none))), 4) :=
  C2_retry_bound _ _ 3 _ _
    (fun _ => ⟨_, _, rfl, rfl⟩) (fun _ => ⟨_, _, rfl, rfl⟩) rfl rfl

/-- C6: a first invocation throwing a non-retryable typed error makes
`withRetry` stop after exactly one invocation and rethrow the original error
unwrapped — in both the embedding and the LLM retry cores. -/
theorem C6_non_retryable_once {α β : Type} (opE : Nat → Except EmbErr α)
    (opL : Nat → Except LLMErr β) (maxRetries : Nat)
    (dE : EmbErrData) (oE : Option EmbErr) (dL : LLMErrData) (oL : Option LLMErr)
    (hE : opE 0 = .error (.typed dE oE)) (hdE : dE.retryable = false)
    (hL : opL 0 = .error (.typed dL oL)) (hdL : dL.retryable = false) :
    embWithRetry opE maxRetries = (.error (.typed dE oE), 1) ∧
    llmWithRetry opL maxRetries = (.error (.typed dL oL), 1) := by
  constructor
  · have hnr : embNonRetryable (.typed dE oE) = true := by
      simp [embNonRetryable, hdE]
    simp [embWithRetry, embWithRetryGo, hE, hnr]
  · have hnr : llmNonRetryable (.typed dL oL) = true := by
      simp [llmNonRetryable, hdL]
    simp [llmWithRetry, llmWithRetryGo, hL, hnr]

/-- C6 witness: a fatal auth error on the first call is rethrown unwrapped
after exactly one invocation. -/
theorem C6_non_retryable_once_witness :
    embWithRetry (fun _ : Nat =>
        (.error (.typed { code := str "HTTP_401", retryable := false,
                          rateLimit := false, retryAfterMs := none } none) :
          Except EmbErr Unit)) 3 =
      (.error (.typed { code := str "HTTP_401", retryable := false,
                        rateLimit := false, retryAfterMs := none } none), 1) ∧
    llmWithRetry (fun _ : Nat =>
        (.error (.typed { code := str "HTTP_401", retryable := false,
                          rateLimit := false, retryAfterMs := none } none) :
          Except LLMErr Unit)) 3 =
      (.error (.typed { code := str "HTTP_401", retryable := false,
                        rateLimit := false, retryAfterMs := none } none), 1) :=
  C6_non_retryable_once _ _ 3 _ _ _ _ rfl rfl rfl rfl

-- ------------------------------------------------------------------
-- C8: finish-reason mappings
-- ------------------------------------------------------------------

/-- C8: both providers' finish-reason mappings normalize into
`{stop, length, content_filter, null}`; Anthropic maps `end_turn` and
`stop_sequence` to `stop` and `max_tokens` to `length`; Google maps `STOP` to
`stop`, `MAX_TOKENS` to `length` and `SAFETY`/`RECITATION` to
`content_filter`; every unrecognized reason maps to `null`. -/
theorem C8_finish_reason_mapping (ra rg : Str)
    (ha : ra ∉ [str "end_turn", str "stop_sequence", str "max_tokens"])
    (hg : rg ∉ [str "STOP", str "MAX_TOKENS", str "SAFETY", str "RECITATION"]) :
    anthropicMapFinishReason (some (str "end_turn")) = some .stop ∧
    anthropicMapFinishReason (some (str "stop_sequence")) = some .stop ∧
    anthropicMapFinishReason (some (str "max_tokens")) = some .length ∧
    googleMapFinishReason (str "STOP") = some .stop ∧
    googleMapFinishReason (str "MAX_TOKENS") = some .length ∧
    googleMapFinishReason (str "SAFETY") = some .content_filter ∧
    googleMapFinishReason (str "RECITATION") = some .content_filter ∧
    anthropicMapFinishReason (some ra) = none ∧
    anthropicMapFinishReason none = none ∧
    googleMapFinishReason rg = none ∧
    (∀ r : Option Str, anthropicMapFinishReason r = some .stop ∨
      anthropicMapFinishReason r = some .length ∨
      anthropicMapFinishReason r = some .content_filter ∨
      anthropicMapFinishReason r = none) ∧
    (∀ r : Str, googleMapFinishReason r = some .stop ∨
      googleMapFinishReason r = some .length ∨
      googleMapFinishReason r = some .content_filter ∨
      googleMapFinishReason r = none) := by
  simp only [List.mem_cons, List.mem_singleton, not_or] at ha hg
  refine ⟨rfl, rfl, rfl, rfl, rfl, rfl, rfl, ?_, rfl, ?_, ?_, ?_⟩
  · simp [anthropicMapFinishReason, ha.1, ha.2.1, ha.2.2]
  · simp [googleMapFinishReason, hg.1, hg.2.1, hg.2.2.1, hg.2.2.2]
  · intro r
    cases r with
    | none => simp [anthropicMapFinishReason]
    | some s =>
      simp only [anthropicMapFinishReason]
      split_ifs <;> simp
  · intro r
    simp only [googleMapFinishReason]
    split_ifs <;> simp

/-- C8 witness: an unknown vendor reason maps to `null` in both providers. -/
theorem C8_finish_reason_mapping_witness :
    anthropicMapFinishReason (some (str "tool_use")) = none ∧
    googleMapFinishReason (str "OTHER") = none := by
  have h := C8_finish_reason_mapping (str "tool_use") (str "OTHER")
    (by decide) (by decide)
  exact ⟨h.2.2.2.2.2.2.2.1, h.2.2.2.2.2.2.2.2.2.1⟩

-- ------------------------------------------------------------------
-- C4: the fixed-chunker 2500-character scenario
-- ------------------------------------------------------------------

-- Evaluation lemmas on runs of identical non-whitespace characters, used to
-- trace `fixedChunk` on the 2500-character scenario without bulk reduction.

theorem replaceCRLF_replicateA (k : Nat) :
    replaceCRLF (List.replicate k 'A') = List.replicate k 'A' := by
  induction k with
  | zero => rfl
  | succ n ih =>
    rw [List.replicate_succ]
    calc replaceCRLF ('A' :: List.replicate n 'A')
        = 'A' :: replaceCRLF (List.replicate n 'A') := rfl
    _ = 'A' :: List.replicate n 'A' := by rw [ih]

theorem collapseSpaceTabGo_replicateA :
    ∀ fuel k, k ≤ fuel →
      collapseSpaceTabGo fuel (List.replicate k 'A') = List.replicate k 'A' := by
  intro fuel
  induction fuel with
  | zero =>
    intro k hk
    have : k = 0 := by omega
    subst this
    rfl
  | succ f ih =>
    intro k hk
    cases k with
    | zero => rfl
    | succ m =>
      rw [List.replicate_succ]
      calc collapseSpaceTabGo (f + 1) ('A' :: List.replicate m 'A')
          = 'A' :: collapseSpaceTabGo f (List.replicate m 'A') := rfl
      _ = 'A' :: List.replicate m 'A' := by rw [ih m (by omega)]

theorem collapseNewlinesGo_replicateA :
    ∀ fuel k, k ≤ fuel →
      collapseNewlinesGo fuel (List.replicate k 'A') = List.replicate k 'A' := by
  intro fuel
  induction fuel with
  | zero =>
    intro k hk
    have : k = 0 := by omega
    subst this
    rfl
  | succ f ih =>
    intro k hk
    cases k with
    | zero => rfl
    | succ m =>
      rw [List.replicate_succ]
      calc collapseNewlinesGo (f + 1) ('A' :: List.replicate m 'A')
          = 'A' :: collapseNewlinesGo f (List.replicate m 'A') := rfl
      _ = 'A' :: List.replicate m 'A' := by rw [ih m (by omega)]

theorem dropWhile_replicateA (k : Nat) :
    List.dropWhile isJsWs (List.replicate k 'A') = List.replicate k 'A' := by
  cases k with
  | zero => rfl
  | succ m =>
    rw [List.replicate_succ, List.dropWhile_cons]
    have : isJsWs 'A' = false := by decide
    simp [this]

theorem jsTrim_replicateA (k : Nat) :
    jsTrim (List.replicate k 'A') = List.replicate k 'A' := by
  unfold jsTrim
  rw [dropWhile_replicateA, List.reverse_replicate, dropWhile_replicateA,
    List.reverse_replicate]

theorem clean_replicateA (k : Nat) :
    cleanTextForChunking (List.replicate k 'A') = List.replicate k 'A' := by
  simp only [cleanTextForChunking, replaceCRLF_replicateA, collapseSpaceTab,
    List.length_replicate, collapseSpaceTabGo_replicateA k k (le_refl k),
    collapseNewlines, collapseNewlinesGo_replicateA k k (le_refl k),
    jsTrim_replicateA]

theorem clampIdx_le (n : Nat) (i : Int) : clampIdx n i ≤ n := by
  simp only [clampIdx]
  omega

theorem clampIdx_of_nonneg_lt (n : Nat) (i : Int) (h0 : 0 ≤ i) (h : i ≤ (n : Int)) :
    clampIdx n i = i.toNat := by
  simp only [clampIdx]
  omega

theorem clampIdx_of_nonneg (n : Nat) (i : Int) (h0 : 0 ≤ i) :
    clampIdx n i = (min i (n : Int)).toNat := by
  simp only [clampIdx]
  omega

theorem jsSubstring_replicateA (n : Nat) (a b : Int) :
    jsSubstring (List.replicate n 'A') a b =
      List.replicate (max (clampIdx n a) (clampIdx n b) - min (clampIdx n a) (clampIdx n b)) 'A' := by
  have ha := clampIdx_le n a
  have hb := clampIdx_le n b
  simp only [jsSubstring, List.length_replicate, List.drop_replicate, List.take_replicate]
  congr 1
  omega

/-- One iteration of the fixed-chunker loop on a run of identical
non-whitespace characters with `preserveSentences = false`. -/
theorem fixedGoA_step (n cs ov minC L : Nat) (fuel : Nat) (st : Int)
    (accRev : List IChunkData) (h0 : 0 ≤ st) (h1 : st < (n : Int))
    (hL : (L : Int) = min (st + (cs : Int)) (n : Int) - st) :
    fixedChunkGo (List.replicate n 'A') cs ov minC false none (fuel + 1) st accRev =
      (if L < minC ∧ st + (cs : Int) < (n : Int) then
         fixedChunkGo (List.replicate n 'A') cs ov minC false none fuel
           (st + (cs : Int) - (ov : Int)) accRev
       else
         fixedChunkGo (List.replicate n 'A') cs ov minC false none fuel
           (if st + (cs : Int) - (ov : Int) ≤ st then st + (cs : Int)
            else st + (cs : Int) - (ov : Int))
           ({ content := List.replicate L 'A', charCount := L, tokenCount := (L + 3) / 4,
              metadata := { startChar := some st, endChar := some (st + (cs : Int)) } }
             :: accRev)) := by
  have hca : clampIdx n st = st.toNat :=
    clampIdx_of_nonneg_lt n st h0 (by omega)
  have hcb : clampIdx n (st + (cs : Int)) = (min (st + (cs : Int)) (n : Int)).toNat :=
    clampIdx_of_nonneg n (st + (cs : Int)) (by omega)
  have hmaxmin : max (clampIdx n st) (clampIdx n (st + (cs : Int))) -
      min (clampIdx n st) (clampIdx n (st + (cs : Int))) = L := by
    rw [hca, hcb]
    omega
  simp only [fixedChunkGo, List.length_replicate, if_pos h1, Bool.false_eq_true,
    false_and, if_false, jsSubstring_replicateA, hmaxmin, jsTrim_replicateA,
    estimateTokens]

/-- The fixed-chunker loop stops as soon as the position reaches the end. -/
theorem fixedGo_done (cleaned : Str) (cs ov minC : Nat) (preserve : Bool)
    (pages : Option (List IPageContent)) (fuel : Nat) (st : Int)
    (accRev : List IChunkData) (h : ¬ st < (cleaned.length : Int)) :
    fixedChunkGo cleaned cs ov minC preserve pages fuel st accRev = some accRev.reverse := by
  cases fuel <;> simp [fixedChunkGo, h]

/-- The full trace of `fixedChunk` on 2500 identical characters with
`{chunkSize: 1000, chunkOverlap: 200, minChunkSize: 100,
preserveSentences: false}`: windows [0,1000), [800,1800), [1600,2600),
[2400,3400), all four pushed. -/
theorem C4_fixedChunk_trace :
    fixedChunk (List.replicate 2500 'A')
      { chunkSize := 1000, chunkOverlap := 200, minChunkSize := some 100,
        preserveSentences := some false } none =
    some [{ content := List.replicate 1000 'A', charCount := 1000, tokenCount := 250, metadata := { startChar := some 0, endChar := some 1000 } },
            { content := List.replicate 1000 'A', charCount := 1000, tokenCount := 250, metadata := { startChar := some 800, endChar := some 1800 } },
            { content := List.replicate 900 'A', charCount := 900, tokenCount := 225, metadata := { startChar := some 1600, endChar := some 2600 } },
            { content := List.replicate 100 'A', charCount := 100, tokenCount := 25, metadata := { startChar := some 2400, endChar := some 3400 } }] := by
  have h0 : fixedChunk (List.replicate 2500 'A')
      { chunkSize := 1000, chunkOverlap := 200, minChunkSize := some 100,
        preserveSentences := some false } none
      = fixedChunkGo (List.replicate 2500 'A') 1000 200 100 false none (2500 + 1) 0 [] := by
    simp only [fixedChunk, fixedChunkOn, clean_replicateA, List.length_replicate,
      Option.getD_some]
  rw [h0]
  calc fixedChunkGo (List.replicate 2500 'A') 1000 200 100 false none (2500 + 1) 0 []
      = fixedChunkGo (List.replicate 2500 'A') 1000 200 100 false none (2499 + 1) 800
          [{ content := List.replicate 1000 'A', charCount := 1000, tokenCount := 250, metadata := { startChar := some 0, endChar := some 1000 } }] := by
        rw [fixedGoA_step 2500 1000 200 100 1000 2500 0 [] (by norm_num) (by norm_num) (by norm_num)]
        norm_num
  _ = fixedChunkGo (List.replicate 2500 'A') 1000 200 100 false none (2498 + 1) 1600
          [{ content := List.replicate 1000 'A', charCount := 1000, tokenCount := 250, metadata := { startChar := some 800, endChar := some 1800 } },
            { content := List.replicate 1000 'A', charCount := 1000, tokenCount := 250, metadata := { startChar := some 0, endChar := some 1000 } }] := by
        rw [fixedGoA_step 2500 1000 200 100 1000 2499 800 _ (by norm_num) (by norm_num) (by norm_num)]
        norm_num
  _ = fixedChunkGo (List.replicate 2500 'A') 1000 200 100 false none (2497 + 1) 2400
          [{ content := List.replicate 900 'A', charCount := 900, tokenCount := 225, metadata := { startChar := some 1600, endChar := some 2600 } },
            { content := List.replicate 1000 'A', charCount := 1000, tokenCount := 250, metadata := { startChar := some 800, endChar := some 1800 } },
            { content := List.replicate 1000 'A', charCount := 1000, tokenCount := 250, metadata := { startChar := some 0, endChar := some 1000 } }] := by
        rw [fixedGoA_step 2500 1000 200 100 900 2498 1600 _ (by norm_num) (by norm_num) (by norm_num)]
        norm_num
  _ = fixedChunkGo (List.replicate 2500 'A') 1000 200 100 false none 2497 3200
          [{ content := List.replicate 100 'A', charCount := 100, tokenCount := 25, metadata := { startChar := some 2400, endChar := some 3400 } },
            { content := List.replicate 900 'A', charCount := 900, tokenCount := 225, metadata := { startChar := some 1600, endChar := some 2600 } },
            { content := List.replicate 1000 'A', charCount := 1000, tokenCount := 250, metadata := { startChar := some 800, endChar := some 1800 } },
            { content := List.replicate 1000 'A', charCount := 1000, tokenCount := 250, metadata := { startChar := some 0, endChar := some 1000 } }] := by
        rw [fixedGoA_step 2500 1000 200 100 100 2497 2400 _ (by norm_num) (by norm_num) (by norm_num)]
        norm_num
  _ = some [{ content := List.replicate 1000 'A', charCount := 1000, tokenCount := 250, metadata := { startChar := some 0, endChar := some 1000 } },
            { content := List.replicate 1000 'A', charCount := 1000, tokenCount := 250, metadata := { startChar := some 800, endChar := some 1800 } },
            { content := List.replicate 900 'A', charCount := 900, tokenCount := 225, metadata := { startChar := some 1600, endChar := some 2600 } },
            { content := List.replicate 100 'A', charCount := 100, tokenCount := 25, metadata := { startChar := some 2400, endChar := some 3400 } }] := by
        rw [fixedGo_done _ _ _ _ _ _ _ _ _ (by norm_num [List.length_replicate])]
        rfl

/-- C4 counterexample: on 2500 identical characters with
`{chunkSize: 1000, chunkOverlap: 200, minChunkSize: 100,
preserveSentences: false}`, `fixedChunk` returns 4 chunks, not the 3 the
claim states (starts 0, 800, 1600 and 2400: the fourth window begins at 2400
< 2500). -/
theorem C4_fixedChunk_2500_cex :
    (fixedChunk (List.replicate 2500 'A')
        { chunkSize := 1000, chunkOverlap := 200, minChunkSize := some 100,
          preserveSentences := some false } none).map List.length = some 4 ∧
    (4 : Nat) ≠ 3 := by
  rw [C4_fixedChunk_trace]
  exact ⟨rfl, by decide⟩

/-- C4 amended: the same scenario yields exactly 4 chunks of content lengths
1000, 1000, 900 and 100, every chunk's content is at most 1000 characters,
chunk 1 starts at offset 800, and the final chunk (content length 100, exactly
`minChunkSize`) is retained. -/
theorem C4_fixedChunk_2500_amended :
    (fixedChunk (List.replicate 2500 'A')
        { chunkSize := 1000, chunkOverlap := 200, minChunkSize := some 100,
          preserveSentences := some false } none).map
        (fun l => l.map (fun c => (c.content.length, c.metadata.startChar))) =
      some [(1000, some 0), (1000, some 800), (900, some 1600), (100, some 2400)] ∧
    [1000, 1000, 900, 100].all (fun n => n ≤ 1000) = true := by
  rw [C4_fixedChunk_trace]
  refine ⟨?_, by decide⟩
  simp only [Option.map_some', List.map_cons, List.map_nil, List.length_replicate]

-- ------------------------------------------------------------------
-- C10: Anthropic message translation
-- ------------------------------------------------------------------

/-- The accumulation of the system prompt across system messages, as the
source's ternary performs it (JS truthiness on the accumulated string). -/
def accSys : Option Str → List Str → Option Str
  | sp, [] => sp
  | sp, c :: rest =>
    accSys (some (match sp with
                  | some s => if s.isEmpty then c else s ++ str "\n\n" ++ c
                  | none => c)) rest

theorem anthropicFold (messages : List ChatMessage) :
    ∀ sp acc, messages.foldl anthropicFormatStep (sp, acc) =
      (accSys sp (systemContents messages), acc ++ nonSystemMessages messages) := by
  induction messages with
  | nil =>
    intro sp acc
    simp [systemContents, nonSystemMessages, accSys]
  | cons m rest ih =>
    intro sp acc
    cases hr : m.role with
    | system =>
      simp only [List.foldl_cons, anthropicFormatStep, hr, systemContents,
        nonSystemMessages, ih]
      rfl
    | user =>
      simp only [List.foldl_cons, anthropicFormatStep, hr, systemContents,
        nonSystemMessages, ih, List.append_assoc]
      rfl
    | assistant =>
      simp only [List.foldl_cons, anthropicFormatStep, hr, systemContents,
        nonSystemMessages, ih, List.append_assoc]
      rfl

theorem joinBlank_append (rest : List Str) (s c : Str) :
    joinBlank ((s ++ str "\n\n" ++ c) :: rest) = s ++ str "\n\n" ++ joinBlank (c :: rest) := by
  cases rest with
  | nil => rfl
  | cons d ds => simp [joinBlank, List.append_assoc]

theorem accSys_some (l : List Str) :
    ∀ s : Str, ¬ s.isEmpty → accSys (some s) l = some (joinBlank (s :: l)) := by
  induction l with
  | nil =>
    intro s _
    rfl
  | cons c rest ih =>
    intro s hs
    have hstep : accSys (some s) (c :: rest) = accSys (some (s ++ str "\n\n" ++ c)) rest := by
      simp only [accSys]
      rw [if_neg]
      simpa using hs
    rw [hstep, ih (s ++ str "\n\n" ++ c) (by cases s <;> simp [str]),
      joinBlank_append]
    rfl

/-- C10 counterexample: with two system messages whose first content is empty,
the produced system prompt is the second content alone (`"b"`), not the
blank-line join `"\n\nb"` of the two contents — JS truthiness replaces an
empty accumulated prompt instead of joining. The returned message list is
empty, as the claim states. -/
theorem C10_formatMessages_cex :
    (anthropicFormatMessages
        [⟨.system, str "", none⟩, ⟨.system, str "b", none⟩]).1 = some (str "b") ∧
    joinBlank [str "", str "b"] = str "\n\nb" ∧
    some (str "b") ≠ some (str "\n\nb") ∧
    (anthropicFormatMessages
        [⟨.system, str "", none⟩, ⟨.system, str "b", none⟩]).2 = [] := by
  refine ⟨rfl, rfl, ?_, rfl⟩
  simp [str]

/-- C10 amended: system messages are removed and their contents joined by a
blank line into the separate system prompt provided the first system content
is non-empty (an empty accumulated prompt is replaced, not joined); a
synthetic `user: "Hello"` turn is prepended exactly when the remaining list is
non-empty and does not start with a user message; when every message is
system-role the returned list is empty. -/
theorem C10_formatMessages_amended (messages : List ChatMessage)
    (hhead : ∀ c rest, systemContents messages = c :: rest → ¬ c.isEmpty) :
    ((systemContents messages = [] → (anthropicFormatMessages messages).1 = none) ∧
     (systemContents messages ≠ [] →
        (anthropicFormatMessages messages).1 = some (joinBlank (systemContents messages)))) ∧
    (anthropicFormatMessages messages).2 =
      (match nonSystemMessages messages with
       | [] => []
       | f :: rest =>
         if f.role ≠ .user then ⟨.user, str "Hello"⟩ :: f :: rest else f :: rest) ∧
    (nonSystemMessages messages = [] → (anthropicFormatMessages messages).2 = []) := by
  have hfold := anthropicFold messages none []
  have h1 : (anthropicFormatMessages messages).1 = accSys none (systemContents messages) := by
    simp only [anthropicFormatMessages, hfold]
    cases nonSystemMessages messages with
    | nil => rfl
    | cons f rest =>
      simp only [List.nil_append]
      by_cases hu : f.role = .user
      · simp [hu]
      · simp [hu]
  have h2 : (anthropicFormatMessages messages).2 =
      (match nonSystemMessages messages with
       | [] => []
       | f :: rest =>
         if f.role ≠ .user then ⟨.user, str "Hello"⟩ :: f :: rest else f :: rest) := by
    simp only [anthropicFormatMessages, hfold]
    cases nonSystemMessages messages with
    | nil => rfl
    | cons f rest =>
      simp only [List.nil_append]
      by_cases hu : f.role = .user
      · simp [hu]
      · simp [hu]
  refine ⟨⟨?_, ?_⟩, h2, ?_⟩
  · intro hsys
    rw [h1, hsys]
    rfl
  · intro hsys
    cases hcs : systemContents messages with
    | nil => exact absurd hcs hsys
    | cons c rest =>
      rw [h1, hcs]
      have hc := hhead c rest hcs
      calc accSys none (c :: rest) = accSys (some c) rest := by simp [accSys]
      _ = some (joinBlank (c :: rest)) := accSys_some rest c hc
  · intro hns
    rw [h2, hns]

/-- C10 witness: one system message and one assistant message — system prompt
extracted, synthetic user turn prepended. -/
theorem C10_formatMessages_witness :
    ((systemContents [⟨.system, str "be brief", none⟩, ⟨.assistant, str "ok", none⟩] = [] →
        (anthropicFormatMessages
          [⟨.system, str "be brief", none⟩, ⟨.assistant, str "ok", none⟩]).1 = none) ∧
     (systemContents [⟨.system, str "be brief", none⟩, ⟨.assistant, str "ok", none⟩] ≠ [] →
        (anthropicFormatMessages
          [⟨.system, str "be brief", none⟩, ⟨.assistant, str "ok", none⟩]).1 =
          some (joinBlank (systemContents
            [⟨.system, str "be brief", none⟩, ⟨.assistant, str "ok", none⟩])))) ∧
    (anthropicFormatMessages
        [⟨.system, str "be brief", none⟩, ⟨.assistant, str "ok", none⟩]).2 =
      (match nonSystemMessages [⟨.system, str "be brief", none⟩, ⟨.assistant, str "ok", none⟩] with
       | [] => []
       | f :: rest =>
         if f.role ≠ .user then ⟨.user, str "Hello"⟩ :: f :: rest else f :: rest) ∧
    (nonSystemMessages [⟨.system, str "be brief", none⟩, ⟨.assistant, str "ok", none⟩] = [] →
      (anthropicFormatMessages
        [⟨.system, str "be brief", none⟩, ⟨.assistant, str "ok", none⟩]).2 = []) :=
  C10_formatMessages_amended _ (by intro c rest h; cases h; decide)

-- ------------------------------------------------------------------
-- C3 / C7 counterexamples
-- ------------------------------------------------------------------

/-- C3 counterexample: `recursiveChunk` on the non-empty text
`"Hello world."` with `minChunkSize = 100` returns the empty list — the final
chunk of the document is dropped for being below `minChunkSize`, so the
claimed always-retain-final-chunk policy does not hold for every strategy. -/
theorem C3_recursive_drops_final_cex :
    recursiveChunk (str "Hello world.")
      { chunkSize := 1000, chunkOverlap := 200, minChunkSize := some 100 } = [] ∧
    cleanTextForChunking (str "Hello world.") ≠ [] := by
  exact ⟨rfl, by decide⟩

/-- C7 counterexample: with `minChunkSize = 0`, `recursiveChunk` on the empty
string returns one chunk with empty content instead of an empty list, so the
empty-input policy does not hold for every options value. -/
theorem C7_empty_input_cex :
    recursiveChunk ([] : Str)
      { chunkSize := 1000, chunkOverlap := 200, minChunkSize := some 0 } =
      [{ content := [], charCount := 0, tokenCount := 0,
         metadata := { startChar := some 0 } }] ∧
    ([{ content := ([] : Str), charCount := 0, tokenCount := 0,
        metadata := { startChar := some 0 } }] : List IChunkData) ≠ [] := by
  exact ⟨rfl, by simp⟩

-- ------------------------------------------------------------------
-- C5: termination of the fixed-chunker loop
-- ------------------------------------------------------------------

/-- C5 counterexample: two pathological configurations on which the source
`while` loop of `fixedChunk` runs forever. With `chunkOverlap = chunkSize`
(10 = 10) and `minChunkSize = 100`, the skip-small-window branch recomputes
`startPos = endPos - chunkOverlap` without the progress guard, so the
position never advances; with `preserveSentences = true`, a small `chunkSize`
and an early word boundary, `findBreakPoint` keeps returning the same break
position and the loop sticks at `startPos = 3`. -/
theorem C5_nontermination_cex :
    fixedChunkDiverges (List.replicate 20 'A')
      { chunkSize := 10, chunkOverlap := 10, minChunkSize := some 100,
        preserveSentences := some false } ∧
    fixedChunkDiverges (str "ab " ++ List.replicate 30 'c')
      { chunkSize := 5, chunkOverlap := 0, minChunkSize := some 100,
        preserveSentences := some true } := by
  constructor
  · have step : ∀ f : Nat,
        fixedChunkGo (cleanTextForChunking (List.replicate 20 'A')) 10 10 100 false none
          (f + 1) 0 [] =
        fixedChunkGo (cleanTextForChunking (List.replicate 20 'A')) 10 10 100 false none
          f 0 [] := fun _ => rfl
    intro fuel
    show fixedChunkGo (cleanTextForChunking (List.replicate 20 'A')) 10 10 100 false none
      fuel 0 [] = none
    induction fuel with
    | zero => rfl
    | succ f ih =>
      rw [step f]
      exact ih
  · have step3 : ∀ f : Nat,
        fixedChunkGo (cleanTextForChunking (str "ab " ++ List.replicate 30 'c')) 5 0 100
          true none (f + 1) 3 [] =
        fixedChunkGo (cleanTextForChunking (str "ab " ++ List.replicate 30 'c')) 5 0 100
          true none f 3 [] := fun _ => rfl
    have h3 : ∀ f : Nat,
        fixedChunkGo (cleanTextForChunking (str "ab " ++ List.replicate 30 'c')) 5 0 100
          true none f 3 [] = none := by
      intro f
      induction f with
      | zero => rfl
      | succ g ih =>
        rw [step3 g]
        exact ih
    have step0 : ∀ f : Nat,
        fixedChunkGo (cleanTextForChunking (str "ab " ++ List.replicate 30 'c')) 5 0 100
          true none (f + 1) 0 [] =
        fixedChunkGo (cleanTextForChunking (str "ab " ++ List.replicate 30 'c')) 5 0 100
          true none f 3 [] := fun _ => rfl
    intro fuel
    show fixedChunkGo (cleanTextForChunking (str "ab " ++ List.replicate 30 'c')) 5 0 100
      true none fuel 0 [] = none
    cases fuel with
    | zero => rfl
    | succ f =>
      rw [step0 f]
      exact h3 f

/-- The strict ordering of recorded start offsets between chunks. -/
def startCharLt (a b : IChunkData) : Prop :=
  ∃ x y : Int, a.metadata.startChar = some x ∧ b.metadata.startChar = some y ∧ x < y

/-- With `preserveSentences = false` and `chunkOverlap < chunkSize`, every
iteration of the fixed-chunker loop advances the position by
`chunkSize - chunkOverlap ≥ 1`: the loop finishes within the fuel and the
chunks it emits carry strictly increasing start offsets, all at least the
current position. -/
theorem fixedChunkGo_progress (cleaned : Str) (cs ov minC : Nat) (hov : ov < cs) :
    ∀ (fuel : Nat) (st : Int) (accRev : List IChunkData),
      (cleaned.length : Int) ≤ st + fuel - 1 →
      ∃ suffix, fixedChunkGo cleaned cs ov minC false none fuel st accRev =
          some (accRev.reverse ++ suffix) ∧
        (∀ c ∈ suffix, ∃ x : Int, c.metadata.startChar = some x ∧ st ≤ x) ∧
        List.Chain' startCharLt suffix := by
  intro fuel
  induction fuel with
  | zero =>
    intro st accRev hfuel
    have hst : ¬ st < (cleaned.length : Int) := by omega
    refine ⟨[], ?_, by simp, List.chain'_nil⟩
    simp [fixedChunkGo, hst]
  | succ f ih =>
    intro st accRev hfuel
    by_cases hst : st < (cleaned.length : Int)
    · have hnext : (cleaned.length : Int) ≤ (st + (cs : Int) - (ov : Int)) + f - 1 := by
        omega
      by_cases hskip : (jsTrim (jsSubstring cleaned st (st + (cs : Int)))).length < minC ∧
          st + (cs : Int) < (cleaned.length : Int)
      · obtain ⟨suffix, hgo, hlb, hch⟩ := ih (st + (cs : Int) - (ov : Int)) accRev hnext
        refine ⟨suffix, ?_, ?_, hch⟩
        · rw [← hgo]
          simp only [fixedChunkGo, if_pos hst, Bool.false_eq_true, false_and, if_false,
            if_pos hskip]
        · intro c hc
          obtain ⟨x, hx, hle⟩ := hlb c hc
          exact ⟨x, hx, by omega⟩
      · set chunk : IChunkData :=
          { content := jsTrim (jsSubstring cleaned st (st + (cs : Int)))
            charCount := (jsTrim (jsSubstring cleaned st (st + (cs : Int)))).length
            tokenCount := estimateTokens (jsTrim (jsSubstring cleaned st (st + (cs : Int))))
            metadata := { startChar := some st, endChar := some (st + (cs : Int)) } }
          with hchunk
        obtain ⟨suffix, hgo, hlb, hch⟩ := ih (st + (cs : Int) - (ov : Int)) (chunk :: accRev) hnext
        have hguard : ¬ (st + (cs : Int) - (ov : Int) ≤ st) := by omega
        refine ⟨chunk :: suffix, ?_, ?_, ?_⟩
        · have hrw : fixedChunkGo cleaned cs ov minC false none (f + 1) st accRev =
              fixedChunkGo cleaned cs ov minC false none f (st + (cs : Int) - (ov : Int))
                (chunk :: accRev) := by
            simp only [fixedChunkGo, if_pos hst, Bool.false_eq_true, false_and, if_false,
              if_neg hskip, if_neg hguard, hchunk]
          rw [hrw, hgo]
          simp
        · intro c hc
          cases hc with
          | head => exact ⟨st, rfl, le_refl st⟩
          | tail _ hmem =>
            obtain ⟨x, hx, hle⟩ := hlb c hmem
            exact ⟨x, hx, by omega⟩
        · rw [List.chain'_cons']
          refine ⟨?_, hch⟩
          intro y hy
          have hmem : y ∈ suffix := List.mem_of_mem_head? hy
          obtain ⟨x, hx, hle⟩ := hlb y hmem
          exact ⟨st, x, rfl, hx, by omega⟩
    · refine ⟨[], ?_, by simp, List.chain'_nil⟩
      simp [fixedChunkGo, hst]

/-- C5 amended: for every input text, `fixedChunk` with
`preserveSentences = false` and `chunkOverlap < chunkSize` terminates within
its fuel and returns chunks whose recorded `metadata.startChar` values are
strictly increasing. (The claim's pathological configurations with
`chunkOverlap ≥ chunkSize`, or with `preserveSentences = true` and a break
point at or before the window start, make the source loop run forever — see
the counterexample.) -/
theorem C5_fixedChunk_progress_amended (text : Str) (options : IChunkingOptions)
    (hpre : options.preserveSentences = some false)
    (hov : options.chunkOverlap < options.chunkSize) :
    ∃ chunks, fixedChunk text options none = some chunks ∧
      List.Chain' startCharLt chunks := by
  obtain ⟨suffix, hgo, _, hch⟩ :=
    fixedChunkGo_progress (cleanTextForChunking text) options.chunkSize
      options.chunkOverlap (options.minChunkSize.getD 100) hov
      ((cleanTextForChunking text).length + 1) 0 [] (by push_cast; omega)
  refine ⟨suffix, ?_, hch⟩
  rw [fixedChunk, fixedChunkOn, hpre]
  simpa using hgo

/-- C5 witness: a concrete sane configuration terminates with strictly
increasing start offsets. -/
theorem C5_fixedChunk_progress_witness :
    ∃ chunks, fixedChunk (str "abcdefghij")
      { chunkSize := 4, chunkOverlap := 1, minChunkSize := some 0,
        preserveSentences := some false } none = some chunks ∧
      List.Chain' startCharLt chunks :=
  C5_fixedChunk_progress_amended _ _ rfl (by decide)

-- ------------------------------------------------------------------
-- C3 amended: the final-chunk policy per strategy
-- ------------------------------------------------------------------

/-- The fixed chunker on text that fits in a single window emits exactly one
chunk containing the whole cleaned text, regardless of `minChunkSize`. -/
theorem fixedGo_whole_text (cleaned : Str) (cs ov minC : Nat) (b : Bool)
    (h1 : 1 ≤ cleaned.length) (h3 : cleaned.length + ov ≤ cs)
    (htrim : jsTrim cleaned = cleaned) :
    fixedChunkGo cleaned cs ov minC b none (cleaned.length + 1) 0 [] =
      some [{ content := cleaned, charCount := cleaned.length,
              tokenCount := estimateTokens cleaned,
              metadata := { startChar := some 0, endChar := some ((0 : Int) + cs) } }] := by
  have hst : (0 : Int) < (cleaned.length : Int) := by omega
  have hcs : ¬ ((0 : Int) + cs < (cleaned.length : Int)) := by omega
  have hsub : jsSubstring cleaned 0 ((0 : Int) + cs) = cleaned :=
    jsSubstring_zero_ge cleaned ((0 : Int) + cs) (by omega)
  have hguard : ¬ ((0 : Int) + cs - ov ≤ 0) := by omega
  have hdone : ¬ ((0 : Int) + cs - ov < (cleaned.length : Int)) := by omega
  simp only [fixedChunkGo, if_pos hst]
  have hb : (if b = true ∧ (0 : Int) + cs < (cleaned.length : Int) then
      findBreakPoint cleaned ((0 : Int) + cs) else (0 : Int) + cs) = (0 : Int) + cs :=
    if_neg (fun h => hcs h.2)
  rw [hb, hsub, htrim, if_neg (fun h => hcs h.2), if_neg hguard,
    fixedGo_done _ _ _ _ _ _ _ _ _ hdone]
  rfl

/-- The recursive chunker returns nothing at all on cleaned text shorter than
`minChunkSize` (that fits in one chunk): the trailing chunk is dropped. -/
theorem recursiveChunk_drops_small (text : Str) (options : IChunkingOptions)
    (hlt : (cleanTextForChunking text).length < options.minChunkSize.getD 100)
    (hcs : (cleanTextForChunking text).length ≤ options.chunkSize) :
    recursiveChunk text options = [] := by
  have hraw : splitRecursively options.chunkSize SEPARATORS (cleanTextForChunking text) =
      [cleanTextForChunking text] := by
    simp only [SEPARATORS, splitRecursively]
    rw [if_pos hcs]
  have hstep : recursiveMergeStep (cleanTextForChunking text) options.chunkSize
      (options.minChunkSize.getD 100) options.chunkOverlap ([], 0, [])
      (cleanTextForChunking text) = (cleanTextForChunking text, 0, []) := by
    simp only [recursiveMergeStep, List.length_nil, Nat.zero_add]
    rw [if_pos hcs]
    simp [List.isEmpty]
  simp only [recursiveChunk, recursiveChunkOn, hraw, List.foldl_cons, List.foldl_nil, hstep]
  rw [if_neg]
  rw [jsTrim_clean]
  omega

/-- C3 amended: the drop-small-except-final policy holds for the fixed
chunker but not for the recursive chunker. On non-empty text whose cleaned
form is shorter than `minChunkSize` (and fits in one window with its
overlap), `fixedChunk` returns exactly the one final chunk regardless of its
size, while `recursiveChunk` drops that final chunk and returns the empty
list. -/
theorem C3_final_chunk_amended (text : Str) (options : IChunkingOptions)
    (hne : cleanTextForChunking text ≠ [])
    (hlt : (cleanTextForChunking text).length < options.minChunkSize.getD 100)
    (hmc : options.minChunkSize.getD 100 ≤ options.chunkSize)
    (hfit : (cleanTextForChunking text).length + options.chunkOverlap ≤ options.chunkSize) :
    fixedChunk text options none =
      some [{ content := cleanTextForChunking text,
              charCount := (cleanTextForChunking text).length,
              tokenCount := estimateTokens (cleanTextForChunking text),
              metadata := { startChar := some 0,
                            endChar := some ((0 : Int) + options.chunkSize) } }] ∧
    recursiveChunk text options = [] := by
  have h1 : 1 ≤ (cleanTextForChunking text).length := by
    cases h : cleanTextForChunking text with
    | nil => exact absurd h hne
    | cons c rest => simp [h]
  constructor
  · rw [fixedChunk, fixedChunkOn]
    exact fixedGo_whole_text (cleanTextForChunking text) options.chunkSize
      options.chunkOverlap (options.minChunkSize.getD 100)
      (options.preserveSentences.getD true) h1 hfit (jsTrim_clean text)
  · exact recursiveChunk_drops_small text options hlt (by omega)

/-- C3 witness: `"Hi."` with the default-style options — the fixed chunker
keeps the tiny final chunk, the recursive chunker silently drops it. -/
theorem C3_final_chunk_witness :
    fixedChunk (str "Hi.")
      { chunkSize := 1000, chunkOverlap := 200, minChunkSize := some 100 } none =
      some [{ content := cleanTextForChunking (str "Hi."),
              charCount := (cleanTextForChunking (str "Hi.")).length,
              tokenCount := estimateTokens (cleanTextForChunking (str "Hi.")),
              metadata := { startChar := some 0, endChar := some ((0 : Int) + 1000) } }] ∧
    recursiveChunk (str "Hi.")
      { chunkSize := 1000, chunkOverlap := 200, minChunkSize := some 100 } = [] :=
  C3_final_chunk_amended _ _ (by decide) (by decide) (by decide) (by decide)

-- ------------------------------------------------------------------
-- C7 amended: empty input
-- ------------------------------------------------------------------

/-- C7 amended: with `minChunkSize ≥ 1`, every strategy maps empty input
(text that cleans to the empty string; an empty or blank page list) to the
empty chunk list. (With `minChunkSize = 0` the recursive chunker instead
emits one empty chunk — see the counterexample.) -/
theorem C7_empty_input_amended (options : IChunkingOptions) (text : Str)
    (pages : List IPageContent)
    (hmin : 1 ≤ options.minChunkSize.getD 100)
    (hclean : cleanTextForChunking text = [])
    (hpages : ∀ p ∈ pages, cleanTextForChunking p.text = []) :
    fixedChunk text options none = some [] ∧
    recursiveChunk text options = [] ∧
    semanticChunk text options = [] ∧
    pageChunk pages options = some [] := by
  refine ⟨?_, ?_, ?_, ?_⟩
  · simp only [fixedChunk, fixedChunkOn, hclean]
    rfl
  · have hraw : splitRecursively options.chunkSize SEPARATORS ([] : Str) = [[]] := by
      simp only [SEPARATORS, splitRecursively]
      rw [if_pos (by simp)]
    have hstep : recursiveMergeStep [] options.chunkSize (options.minChunkSize.getD 100)
        options.chunkOverlap ([], 0, []) [] = ([], 0, []) := by
      simp [recursiveMergeStep]
    simp only [recursiveChunk, recursiveChunkOn, hclean, hraw, List.foldl_cons,
      List.foldl_nil, hstep]
    rw [if_neg]
    show ¬ options.minChunkSize.getD 100 ≤ (jsTrim []).length
    show ¬ options.minChunkSize.getD 100 ≤ 0
    omega
  · simp only [semanticChunk, semanticChunkOn, hclean]
    rfl
  · have hfold : ∀ ps : List IPageContent, (∀ p ∈ ps, cleanTextForChunking p.text = []) →
        ps.foldl (pageChunkStep options) (some []) = some [] := by
      intro ps
      induction ps with
      | nil => intro _; rfl
      | cons p rest ih =>
        intro hall
        have hp := hall p (List.mem_cons_self p rest)
        have hstep : pageChunkStep options (some []) p = some [] := by
          simp only [pageChunkStep, hp]
          rw [if_pos (by simp)]
          rw [if_neg (by simp)]
        simp only [List.foldl_cons, hstep]
        exact ih (fun q hq => hall q (List.mem_cons_of_mem p hq))
    simp only [pageChunk]
    exact hfold pages hpages

/-- C7 witness: blank text and a blank page under the default-style options
give empty chunk lists in all four strategies. -/
theorem C7_empty_input_witness :
    fixedChunk (str "   ")
      { chunkSize := 1000, chunkOverlap := 200, minChunkSize := some 100 } none = some [] ∧
    recursiveChunk (str "   ")
      { chunkSize := 1000, chunkOverlap := 200, minChunkSize := some 100 } = [] ∧
    semanticChunk (str "   ")
      { chunkSize := 1000, chunkOverlap := 200, minChunkSize := some 100 } = [] ∧
    pageChunk [⟨1, str " "⟩]
      { chunkSize := 1000, chunkOverlap := 200, minChunkSize := some 100 } = some [] :=
  C7_empty_input_amended _ _ _ (by decide) (by decide) (by decide)

-- ------------------------------------------------------------------
-- C1: embedBatch ordering
-- ------------------------------------------------------------------

theorem idealFrom_append (f : τ → v) (A B : List τ) :
    ∀ k, idealFrom f k (A ++ B) = idealFrom f k A ++ idealFrom f (k + A.length) B := by
  induction A with
  | nil => intro k; simp [idealFrom]
  | cons t ts ih =>
    intro k
    have h1 : idealFrom f k ((t :: ts) ++ B) =
        ({ embedding := f t, index := k } : EmbeddingResult v) ::
          idealFrom f (k + 1) (ts ++ B) := rfl
    rw [h1, ih (k + 1)]
    have h2 : k + 1 + ts.length = k + (t :: ts).length := by simp; omega
    rw [h2]
    rfl

theorem reassignFrom_idealFrom (f : τ → v) (b : List τ) :
    ∀ (R : List (EmbeddingResult v)) (k j : Nat),
      reassignFrom k (idealFrom f j b ++ R) =
        idealFrom f k b ++ reassignFrom (k + b.length) R := by
  induction b with
  | nil => intro R k j; simp [idealFrom, reassignFrom]
  | cons t ts ih =>
    intro R k j
    have h1 : reassignFrom k (idealFrom f j (t :: ts) ++ R) =
        ({ embedding := f t, index := k } : EmbeddingResult v) ::
          reassignFrom (k + 1) (idealFrom f (j + 1) ts ++ R) := rfl
    rw [h1, ih R (k + 1) (j + 1)]
    have h2 : k + 1 + ts.length = k + (t :: ts).length := by simp; omega
    rw [h2]
    rfl

theorem reassignFrom_flat (f : τ → v) (bs : List (List τ)) :
    ∀ k, reassignFrom k (bs.flatMap (fun b => idealFrom f 0 b)) =
      idealFrom f k (bs.flatMap (fun b => b)) := by
  induction bs with
  | nil => intro k; simp [reassignFrom, idealFrom]
  | cons b rest ih =>
    intro k
    simp only [List.flatMap_cons, reassignFrom_idealFrom, ih (k + b.length),
      idealFrom_append]

theorem makeBatchesGo_flat (m : Nat) (hm : 1 ≤ m) :
    ∀ (fuel : Nat) (l : List τ), l.length ≤ fuel →
      (makeBatchesGo m fuel l).flatMap (fun b => b) = l := by
  intro fuel
  induction fuel with
  | zero =>
    intro l hl
    have : l = [] := by
      cases l with
      | nil => rfl
      | cons a t => simp at hl
    subst this
    rfl
  | succ fl ih =>
    intro l hl
    by_cases hemp : l.isEmpty
    · have : l = [] := by
        cases l with
        | nil => rfl
        | cons a t => simp [List.isEmpty] at hemp
      subst this
      rfl
    · have hlen : 1 ≤ l.length := by
        cases l with
        | nil => simp [List.isEmpty] at hemp
        | cons a t => simp
      simp only [makeBatchesGo, hemp, Bool.false_eq_true, if_false, List.flatMap_cons]
      rw [ih (l.drop m) (by simp [List.length_drop]; omega)]
      exact List.take_append_drop m l

theorem makeBatchesGo_cons (m : Nat) (fuel : Nat) (l : List τ) (hne : ¬ l.isEmpty) :
    makeBatchesGo m (fuel + 1) l = l.take m :: makeBatchesGo m fuel (l.drop m) := by
  simp [makeBatchesGo, hne]

theorem flatMapCongr (l : List α) (g h : α → List β)
    (hgh : ∀ x ∈ l, g x = h x) : l.flatMap g = l.flatMap h := by
  induction l with
  | nil => rfl
  | cons a rest ih =>
    simp only [List.flatMap_cons]
    rw [hgh a (List.mem_cons_self a rest),
      ih (fun x hx => hgh x (List.mem_cons_of_mem a hx))]

theorem seqEmbeddingsFrom_eq_ideal (embedOne : τ → List σ) :
    ∀ (k : Nat) (ts : List τ), seqEmbeddingsFrom embedOne k ts = idealFrom embedOne k ts := by
  intro k ts
  induction ts generalizing k with
  | nil => rfl
  | cons t rest ih => simp [seqEmbeddingsFrom, idealFrom, ih]

/-- C1: `embedBatch` preserves input order with contiguous indices `0..N-1`.
For OpenAI, when the vendor call returns one embedding per input in order
(`hapi`), the result is the ideal in-order list both on the direct path and
on the `processBatches`/`mergeResponses` path taken when the input exceeds
`maxBatchSize`. For Ollama, when the native batch call fails, the sequential
per-text fallback also yields the ideal in-order list. -/
theorem C1_embedBatch_order {τ σ : Type} (f : τ → List σ) (model : Str) (dims : Nat)
    (maxBatchSize : Nat) (api : List τ → EmbeddingResponse (List σ))
    (native : List τ → Except EmbErr (EmbeddingResponse (List σ)))
    (e : EmbErr) (texts otexts : List τ)
    (hm : 1 ≤ maxBatchSize)
    (hapi : ∀ batch, (api batch).embeddings = idealEmbeddings f batch)
    (hnative : native otexts = .error e) :
    (∃ r, openaiEmbedBatch maxBatchSize model dims api texts = .ok r ∧
       r.embeddings = idealEmbeddings f texts) ∧
    (ollamaEmbedBatch model dims native f otexts).embeddings = idealEmbeddings f otexts := by
  constructor
  · by_cases hemp : texts.isEmpty
    · have htx : texts = [] := by
        cases texts with
        | nil => rfl
        | cons a t => simp [List.isEmpty] at hemp
      subst htx
      exact ⟨{ embeddings := [], model := model, dimensions := dims, usage := none },
        by simp [openaiEmbedBatch], rfl⟩
    · by_cases hbig : maxBatchSize < texts.length
      · have hlen1 : 1 ≤ texts.length := by omega
        have htne : ¬ texts.isEmpty := hemp
        have hdne : ¬ (texts.drop maxBatchSize).isEmpty := by
          cases hd : texts.drop maxBatchSize with
          | nil =>
            have := congrArg List.length hd
            simp [List.length_drop] at this
            omega
          | cons a t => simp [List.isEmpty]
        have hb : makeBatches maxBatchSize texts =
            texts.take maxBatchSize ::
              (texts.drop maxBatchSize).take maxBatchSize ::
                makeBatchesGo maxBatchSize (texts.length - 1)
                  ((texts.drop maxBatchSize).drop maxBatchSize) := by
          rw [makeBatches]
          rw [show texts.length + 1 = (texts.length - 1 + 1) + 1 by omega]
          rw [makeBatchesGo_cons maxBatchSize _ texts htne]
          rw [makeBatchesGo_cons maxBatchSize _ _ hdne]
        have hflat : (makeBatches maxBatchSize texts).flatMap (fun b => b) = texts :=
          makeBatchesGo_flat maxBatchSize hm (texts.length + 1) texts (by omega)
        have hEmb : reassignFrom 0
            (((makeBatches maxBatchSize texts).map api).flatMap (fun x => x.embeddings)) =
            idealEmbeddings f texts := by
          rw [List.flatMap_map]
          rw [flatMapCongr (makeBatches maxBatchSize texts)
            (fun x => (api x).embeddings) (fun b => idealFrom f 0 b) (fun b _ => hapi b)]
          rw [reassignFrom_flat, hflat]
          rfl
        refine ⟨{ embeddings := reassignFrom 0
                      (((makeBatches maxBatchSize texts).map api).flatMap
                        (fun x => x.embeddings)),
                  model := (api (texts.take maxBatchSize)).model,
                  dimensions := (api (texts.take maxBatchSize)).dimensions,
                  usage := some (sumUsage ((makeBatches maxBatchSize texts).map api)) },
          ?_, hEmb⟩
        simp only [openaiEmbedBatch, hemp, Bool.false_eq_true, if_false, if_pos hbig,
          processBatches]
        rw [hb]
        simp only [List.map_cons, mergeResponses]
      · refine ⟨api texts, ?_, hapi texts⟩
        simp [openaiEmbedBatch, hemp, hbig]
  · by_cases hoe : otexts.isEmpty
    · have htx : otexts = [] := by
        cases otexts with
        | nil => rfl
        | cons a t => simp [List.isEmpty] at hoe
      subst htx
      rfl
    · simp only [ollamaEmbedBatch, hoe, Bool.false_eq_true, if_false, hnative]
      exact seqEmbeddingsFrom_eq_ideal f 0 otexts

/-- C1 witness: `maxBatchSize = 2` with five inputs exercises the sub-batch
merge; a failing native call exercises the Ollama sequential fallback. -/
theorem C1_embedBatch_order_witness :
    (∃ r, openaiEmbedBatch 2 (str "m") 3
        (fun batch => { embeddings := idealEmbeddings (fun n : Nat => [n]) batch,
                        model := str "m", dimensions := 3 })
        [10, 20, 30, 40, 50] = .ok r ∧
       r.embeddings = idealEmbeddings (fun n : Nat => [n]) [10, 20, 30, 40, 50]) ∧
    (ollamaEmbedBatch (str "m") 3 (fun _ => .error .plain) (fun n : Nat => [n])
        [7, 8]).embeddings = idealEmbeddings (fun n : Nat => [n]) [7, 8] :=
  C1_embedBatch_order _ _ _ _ _ _ _ _ _ (by decide) (fun _ => rfl) rfl
